import Mathlib

/-!
# hal-9001: plugin registry and events (`hal/plugins.go`, `hal/event.go`)

A shallow embedding of the plugin registry of the `hal` package and the
properties of its registration, removal and listing operations, and of the
event helpers `FillPref` and `BodyAsArgv`.

## Modelling conventions

* A Go pointer `*Plugin` / `*Instance` is modelled by the value of the struct it
  points to.  The registry never compares `*Plugin` pointers.  It compares
  `*Instance` pointers in exactly one place (`Instance.Unregister`, `i == inst`),
  so an `Instance` carries the address of its struct in the field `addr` and
  pointer equality is equality of `addr`.
* The only writes the registry code makes through an `*Instance` are in
  `Instance.Register` (`inst.Regex`, `inst.regex`), after the scan of the list
  has found no entry whose `String()` equals `inst.String()`; the instance being
  written is therefore not an entry of the list, and no list entry changes.
  `Instance.Register` returns the instance as the call leaves it.
* `sync.Mutex` serialises every operation, so each operation is a function from
  the registry before the call to the registry after it.
* `log.Printf` has no effect on the registry and is not modelled.
  `log.Fatalf` (process exit) and run-time panics are outcomes of a call.
* Every pointer held by the registry or passed to it is non-nil (a nil receiver
  or a nil `inst.Plugin` panics before the registry is touched).
* `regexp.MustCompile` belongs to the Go standard library; whether a pattern
  compiles is the parameter `compiles`.
-/

namespace Hal

/-! ## Data model -/

/-- The Go type `string`. -/
abbrev GoString := String

/-- Whether `regexp.MustCompile` accepts a pattern. -/
abbrev Compiles := String → Bool

/-- Broker, the interface a plugin is tied to; the registry only ever asks for its name. -/
structure Broker where
  name : String
  deriving DecidableEq, Repr

/-- Pref, a preference record.  Its declaration is in a file of the package that is
not part of the sources at hand; the fields are the ones `event.go` reads and writes. -/
structure Pref where
  User : String
  Room : String
  Broker : String
  Plugin : String
  Key : String
  Default : String
  deriving DecidableEq, Repr

/-- Plugin (plugins.go, lines 22-30).  `Func`, the handler, is a callback that the
registry never calls and is left out. -/
structure Plugin where
  Name : String
  Regex : String
  Multi : Bool
  Broker : Option Broker
  Settings : List Pref
  Secrets : List String
  deriving DecidableEq, Repr

/-- Instance (plugins.go, lines 33-39).  `addr` is the address of the struct, the
identity that `i == inst` compares; `regex` is the compiled pattern (`none` is
the nil pointer, `some s` the matcher compiled from source `s`). -/
structure Instance where
  addr : Nat
  Plugin : Plugin
  Channel : String
  Regex : String
  Settings : List Pref
  regex : Option String
  deriving DecidableEq, Repr

/-- The registry (plugins.go, lines 11-16): the two ordered lists.  `mut` and
`init` carry no data. -/
structure pluginRegistry where
  plugins : List Plugin
  instances : List Instance
  deriving DecidableEq, Repr

/-- PluginRegistry() on first access (lines 43-50): both lists empty. -/
def PluginRegistry : pluginRegistry := ⟨[], []⟩

/-- How a call ends. -/
inductive Outcome where
  /-- the call returned the nil error -/
  | nil : Outcome
  /-- the call returned `fmt.Errorf(msg)` -/
  | error (msg : String) : Outcome
  /-- the call reached `log.Fatalf(msg)`: the process exits -/
  | fatal (msg : String) : Outcome
  /-- the call raised a run-time panic -/
  | panic : Outcome
  deriving DecidableEq, Repr

/-! ## Operations -/

/-- Plugin.Register (lines 53-68): scan the plugins for the name, return nil at the
first hit, otherwise append and return nil. -/
def Plugin.Register (p : Plugin) (pr : pluginRegistry) : Outcome × pluginRegistry :=
  if pr.plugins.any (fun plugin => plugin.Name == p.Name) then
    (Outcome.nil, pr)
  else
    (Outcome.nil, { pr with plugins := pr.plugins ++ [p] })

/-- Plugin.Instance (lines 72-80); `addr` is the address of the fresh struct. -/
def Plugin.Instance (p : Plugin) (addr : Nat) (channel : String) : Instance :=
  { addr := addr, Plugin := p, Channel := channel, Regex := p.Regex,
    Settings := [], regex := none }

/-- Instance.String (lines 278-280): `fmt.Sprintf("%s/%s", inst.Name, inst.Channel)`. -/
def Instance.String (inst : Instance) : GoString :=
  inst.Plugin.Name ++ "/" ++ inst.Channel

/-- The loop of Instance.Register (lines 91-99): `some o` when the loop leaves the
function with outcome `o`, `none` when it runs to its end. -/
def Instance.registerScan (ip : Hal.Plugin) (name : GoString) : List Instance → Option Outcome
  | [] => none
  | i :: rest =>
    if !ip.Multi && ip.Name == i.Plugin.Name then
      some (Outcome.fatal ("BUG: plugin '" ++ ip.Name ++
        "' being registered multiple times when only one instance is allowed."))
    else if i.String == name then
      some (Outcome.error ("'" ++ name ++ "' is already instantiated"))
    else
      Instance.registerScan ip name rest

/-- Lines 102-104 of Instance.Register: an empty pattern is replaced by the default
pattern of the plugin. -/
def Instance.withDefaultRegex (inst : Instance) : Instance :=
  if inst.Regex == "" then { inst with Regex := inst.Plugin.Regex } else inst

/-- Line 108 of Instance.Register when the pattern compiles:
`inst.regex = regexp.MustCompile(inst.Regex)`. -/
def Instance.withCompiled (inst : Instance) : Instance :=
  { inst with regex := some inst.Regex }

/-- Instance.Register (lines 83-117).  Returns the outcome, the registry after the
call and the instance after the call.  `regexp.MustCompile` panics on a pattern
that does not compile. -/
def Instance.Register (compiles : Compiles) (inst : Instance) (pr : pluginRegistry) :
    Outcome × pluginRegistry × Instance :=
  match Instance.registerScan inst.Plugin inst.String pr.instances with
  | some o => (o, pr, inst)
  | none =>
    let inst1 := inst.withDefaultRegex
    if compiles inst1.Regex then
      let inst2 := inst1.withCompiled
      (Outcome.nil, { pr with instances := pr.instances ++ [inst2] }, inst2)
    else
      (Outcome.panic, pr, inst1)

/-- The loop of Instance.Unregister (lines 125-132): `idx` starts at 0 and is set to
the position of the first entry that is the same pointer as `inst`; `j` is the
position of the head of the list still to scan. -/
def Instance.unregisterIdx (inst : Instance) : List Instance → Nat → Nat
  | [], _ => 0
  | i :: rest, j =>
    if i.addr == inst.addr then j else Instance.unregisterIdx inst rest (j + 1)

/-- Instance.Unregister (lines 120-140):
`pr.instances = append(pr.instances[:idx], pr.instances[idx+1:]...)`.
The slice expression `pr.instances[idx+1:]` panics when `idx+1` exceeds the length. -/
def Instance.Unregister (inst : Instance) (pr : pluginRegistry) : Outcome × pluginRegistry :=
  let idx := Instance.unregisterIdx inst pr.instances 0
  if idx + 1 ≤ pr.instances.length then
    (Outcome.nil, { pr with instances := pr.instances.take idx ++ pr.instances.drop (idx + 1) })
  else
    (Outcome.panic, pr)

/-- PluginList (lines 174-181): a copy of the plugin list. -/
def pluginRegistry.PluginList (pr : pluginRegistry) : List Plugin := pr.plugins

/-- InstanceList (lines 184-195): a copy of the instance list. -/
def pluginRegistry.InstanceList (pr : pluginRegistry) : List Instance := pr.instances

/-- GetPlugin (lines 198-209): the first plugin with the name, `none` for nil. -/
def pluginRegistry.GetPlugin (pr : pluginRegistry) (name : String) : Option Plugin :=
  pr.plugins.find? (fun p => p.Name == name)

/-- FindInstances (lines 213-226): append every instance that matches to `out`. -/
def pluginRegistry.FindInstances (pr : pluginRegistry) (channel plugin : String) :
    List Instance :=
  pr.instances.foldl
    (fun out i => if i.Plugin.Name == plugin && i.Channel == channel then out ++ [i] else out) []

/-- One round of the outer loop of ActivePluginList (lines 234-246). -/
def activeStep (out : List Plugin) (i : Instance) : List Plugin :=
  let ip := i.Plugin
  let seen := out.foldl (fun seen p => if p.Name == ip.Name then true else seen) false
  if !seen then out ++ [ip] else out

/-- ActivePluginList (lines 229-250): for every instance, set `seen` when a plugin of
`out` has the name of the instance's plugin, and append the plugin when not seen. -/
def pluginRegistry.ActivePluginList (pr : pluginRegistry) : List Plugin :=
  pr.InstanceList.foldl activeStep []

/-- InactivePluginList (lines 253-272): for every plugin, set `active` when an instance
has a plugin of that name, and append the plugin when not active. -/
def pluginRegistry.InactivePluginList (pr : pluginRegistry) : List Plugin :=
  let inst := pr.InstanceList
  pr.PluginList.foldl
    (fun out p =>
      let active := inst.foldl (fun active i => if p.Name == i.Plugin.Name then true else active) false
      if !active then out ++ [p] else out) []

/-! ## Sequences of calls -/

/-- A call that changes the registry. -/
inductive Call where
  | pluginRegister (p : Plugin) : Call
  | instanceRegister (inst : Instance) : Call
  | instanceUnregister (inst : Instance) : Call
  deriving DecidableEq, Repr

/-- The outcome of one call and the registry it leaves. -/
def Call.exec (compiles : Compiles) (c : Call) (pr : pluginRegistry) :
    Outcome × pluginRegistry :=
  match c with
  | Call.pluginRegister p => p.Register pr
  | Call.instanceRegister inst =>
    let r := inst.Register compiles pr
    (r.1, r.2.1)
  | Call.instanceUnregister inst => inst.Unregister pr

/-- The registry after a sequence of calls, made one after another. -/
def runCalls (compiles : Compiles) : List Call → pluginRegistry → pluginRegistry
  | [], pr => pr
  | c :: cs, pr => runCalls compiles cs (c.exec compiles pr).2

/-- The outcomes of a sequence of calls, in call order. -/
def runOutcomes (compiles : Compiles) : List Call → pluginRegistry → List Outcome
  | [], _ => []
  | c :: cs, pr => (c.exec compiles pr).1 :: runOutcomes compiles cs (c.exec compiles pr).2

/-! ## Events (`hal/event.go`)

`Evt.Broker` is an interface value and `Evt.instance` a pointer; both may be nil
(`ReplyToRoom` and `ReplyTable` test `e.Broker != nil`), which is `none`.  The
`Instance` struct that `Evt.instance` points to need not come from the registry, so
its embedded `*Plugin` may be nil as well.  A method call on the nil interface and a
field read through a nil pointer panic; a function that can panic returns an
`Option`, `none` for the panic.  A broker that is not nil is an implementation of the
interface whose method `Name` returns its name.

Strings are sequences of Unicode characters.  The functions of the Go packages
`strings`, `unicode` and `regexp` that `BodyAsArgv` calls are modelled after the
documentation of those packages, for well-formed UTF-8 text. -/

/-- The struct `Instance` (plugins.go, lines 33-39) as a pointer of an event reaches it:
the embedded `*Plugin` may be nil, which is `none`.  (An instance of the registry has
passed `inst.String()` in Register, so its plugin is not nil, and `Instance` holds the
plugin itself.) -/
structure InstanceRef where
  addr : Nat
  Plugin : Option Plugin
  Channel : String
  Regex : String
  Settings : List Pref
  regex : Option String
  deriving DecidableEq, Repr

/-- An instance that has its plugin, as a pointer reaches it. -/
def Instance.ref (inst : Instance) : InstanceRef :=
  { addr := inst.addr, Plugin := some inst.Plugin, Channel := inst.Channel,
    Regex := inst.Regex, Settings := inst.Settings, regex := inst.regex }

/-- Evt (event.go, lines 15-27).  `Time` and `Original` are read by none of the functions
modelled and are left out; `instance_` is the field `instance`. -/
structure Evt where
  ID : String
  Body : String
  Room : String
  RoomId : String
  User : String
  UserId : String
  Broker : Option Broker
  IsChat : Bool
  instance_ : Option InstanceRef
  deriving DecidableEq, Repr

/-- BrokerName (lines 99-101): `e.Broker.Name()`; panics on the nil interface. -/
def Evt.BrokerName (e : Evt) : Option String :=
  e.Broker.map (fun b => b.name)

/-- The expression `e.instance.Plugin.Name` (line 162): a panic when `e.instance` is nil,
and a panic when the embedded `*Plugin` of the instance is nil. -/
def Evt.instancePluginName (e : Evt) : Option String :=
  match e.instance_ with
  | none => none
  | some i =>
    match i.Plugin with
    | none => none
    | some pl => some pl.Name

/-- FillPref (lines 148-166).  `p` is the function's own copy of the pref. -/
def Evt.FillPref (e : Evt) (p : Pref) : Option Pref :=
  let p1 := if p.User == "" then { p with User := e.User } else p
  let p2 := if p1.Room == "" then { p1 with Room := e.RoomId } else p1
  let r3 := if p2.Broker == "" then e.BrokerName.map (fun b => { p2 with Broker := b })
    else some p2
  match r3 with
  | none => none
  | some p3 =>
    if p3.Plugin == "" then e.instancePluginName.map (fun n => { p3 with Plugin := n })
    else some p3

/-- SaveSettingsToPrefs (lines 163-171).  `set` stands for `Pref.Set`, a method declared
outside the sources at hand: given a pref and the preference store it reports
success (`none`) or failure (`some err`) and gives the store after the write.  The
statement `ipref.Set()` discards that report, and the function has no result; what
is returned here is that empty result and the store the writes leave. -/
def Instance.SaveSettingsToPrefs {σ : Type} (set : Pref → σ → Option GoString × σ)
    (inst : Instance) (store : σ) : Unit × σ :=
  ((), inst.Settings.foldl (fun st ipref => (set ipref st).2) store)

/-- The character `'`. -/
def singleQuote : Char := '\''

/-- The character `"`. -/
def doubleQuote : Char := '"'

/-- The function `unicode.IsSpace`: the Latin-1 spaces `\t \n \v \f \r`, space, U+0085,
U+00A0, and the other characters with the Unicode White_Space property. -/
def unicodeIsSpace (c : Char) : Bool :=
  c.toNat == 9 || c.toNat == 10 || c.toNat == 11 || c.toNat == 12 || c.toNat == 13 ||
  c.toNat == 32 || c.toNat == 0x85 || c.toNat == 0xA0 || c.toNat == 0x1680 ||
  (0x2000 ≤ c.toNat && c.toNat ≤ 0x200A) || c.toNat == 0x2028 || c.toNat == 0x2029 ||
  c.toNat == 0x202F || c.toNat == 0x205F || c.toNat == 0x3000

/-- The class `\s` of Go regular expressions: `[\t\n\f\r ]`. -/
def reSpace (c : Char) : Bool :=
  c.toNat == 9 || c.toNat == 10 || c.toNat == 12 || c.toNat == 13 || c.toNat == 32

/-- The function `strings.TrimSpace`: leading and trailing white space removed. -/
def strings.TrimSpace (s : List Char) : List Char :=
  ((s.dropWhile unicodeIsSpace).reverse.dropWhile unicodeIsSpace).reverse

/-- The function `strings.HasPrefix`. -/
def strings.HasPrefix (s p : List Char) : Bool := p.isPrefixOf s

/-- The function `strings.HasSuffix`. -/
def strings.HasSuffix (s p : List Char) : Bool := p.isSuffixOf s

/-- The function `strings.TrimPrefix`: `s` without the leading `p`, or `s`. -/
def strings.TrimPrefix (s p : List Char) : List Char :=
  if strings.HasPrefix s p then s.drop p.length else s

/-- The function `strings.TrimSuffix`: `s` without the trailing `p`, or `s`. -/
def strings.TrimSuffix (s p : List Char) : List Char :=
  if strings.HasSuffix s p then s.take (s.length - p.length) else s

/-- The text matched by `[^q]*q` at the start of the input, without the closing `q`:
`none` when the input has no `q`. -/
def untilQuote (q : Char) : List Char → Option (List Char)
  | [] => none
  | c :: cs => if c = q then some [] else (untilQuote q cs).map (fun inner => c :: inner)

/-- The match of `q[^q]*q` at the start of the input. -/
def matchQuoted (q : Char) : List Char → Option (List Char)
  | [] => none
  | c :: cs => if c = q then (untilQuote q cs).map (fun inner => q :: inner ++ [q]) else none

/-- The match of `\S+` at the start of the input: the longest run of characters outside
`\s`, when it is not empty. -/
def matchNonSpace (s : List Char) : Option (List Char) :=
  match s.takeWhile (fun c => !reSpace c) with
  | [] => none
  | c :: run => some (c :: run)

/-- The match of the pattern of BodyAsArgv (line 175), `'[^']*'|"[^"]*"|\S+`, at the
start of the input.  Go prefers the leftmost alternative that matches. -/
def argvMatchAt (s : List Char) : Option (List Char) :=
  match matchQuoted singleQuote s with
  | some m => some m
  | none =>
    match matchQuoted doubleQuote s with
    | some m => some m
    | none => matchNonSpace s

/-- The successive non-overlapping matches of the pattern of BodyAsArgv, from left to
right; `skip` is the number of characters still covered by the previous match.  (No
match of the pattern is empty.) -/
def findAllFrom : List Char → Nat → List (List Char)
  | [], _ => []
  | _ :: cs, skip + 1 => findAllFrom cs skip
  | c :: cs, 0 =>
    match argvMatchAt (c :: cs) with
    | none => findAllFrom cs 0
    | some m => m :: findAllFrom cs (m.length - 1)

/-- The call `re.FindAllString(body, -1)` of BodyAsArgv (line 177). -/
def FindAllString (body : List Char) : List (List Char) := findAllFrom body 0

/-- The body of the loop of BodyAsArgv (lines 181-187) for one value. -/
def stripQuotes (val : List Char) : List Char :=
  if strings.HasPrefix val [singleQuote] && strings.HasSuffix val [singleQuote] then
    strings.TrimSuffix (strings.TrimPrefix val [singleQuote]) [singleQuote]
  else if strings.HasPrefix val [doubleQuote] && strings.HasSuffix val [doubleQuote] then
    strings.TrimSuffix (strings.TrimPrefix val [doubleQuote]) [doubleQuote]
  else
    val

/-- BodyAsArgv (lines 173-191) on the characters of the body. -/
def bodyAsArgv (body : List Char) : List (List Char) :=
  (FindAllString (strings.TrimSpace body)).map stripQuotes

/-- BodyAsArgv (lines 173-191). -/
def Evt.BodyAsArgv (e : Evt) : List String :=
  (bodyAsArgv e.Body.toList).map String.mk

/-- How an argument is written in a body: as itself, between double quotes, or between
single quotes. -/
inductive Quoting where
  | bare : Quoting
  | double : Quoting
  | single : Quoting
  deriving DecidableEq, Repr

/-- The written form of an argument. -/
def Quoting.write : Quoting → List Char → List Char
  | Quoting.bare, a => a
  | Quoting.double, a => doubleQuote :: a ++ [doubleQuote]
  | Quoting.single, a => singleQuote :: a ++ [singleQuote]

/-- The arguments that may be written in a form: as itself, a non-empty string without
white space and without quote characters; between double quotes, a string without a
double quote; between single quotes, a string without a single quote. -/
def Quoting.admits : Quoting → List Char → Prop
  | Quoting.bare, a =>
    a ≠ [] ∧ ∀ c ∈ a, unicodeIsSpace c = false ∧ c ≠ singleQuote ∧ c ≠ doubleQuote
  | Quoting.double, a => doubleQuote ∉ a
  | Quoting.single, a => singleQuote ∉ a

/-- Whether an argument may be written in a form can be computed. -/
instance Quoting.admitsDecidable (q : Quoting) (a : List Char) : Decidable (q.admits a) :=
  match q with
  | Quoting.bare =>
    inferInstanceAs (Decidable
      (a ≠ [] ∧ ∀ c ∈ a, unicodeIsSpace c = false ∧ c ≠ singleQuote ∧ c ≠ doubleQuote))
  | Quoting.double => inferInstanceAs (Decidable (doubleQuote ∉ a))
  | Quoting.single => inferInstanceAs (Decidable (singleQuote ∉ a))

/-- Words joined by single spaces. -/
def joinSpace : List (List Char) → List Char
  | [] => []
  | [w] => w
  | w :: v :: ws => w ++ ' ' :: joinSpace (v :: ws)

/-- A body: `lead` spaces, the written arguments joined by single spaces, `trail`
spaces. -/
def writeBody (lead trail : Nat) (args : List (Quoting × List Char)) : List Char :=
  List.replicate lead ' ' ++ joinSpace (args.map (fun qa => qa.1.write qa.2)) ++
    List.replicate trail ' '

/-- The checks of registerInstance in the order the specification gives them, as two
phases: first the whole instance list is scanned for the plugin name when the plugin
is without `Multi` (fatal condition), then it is scanned for the identity string
("already instantiated").  `none` when both phases pass. -/
def registerTwoPhase (ip : Plugin) (name : GoString) (l : List Instance) : Option Outcome :=
  if !ip.Multi && l.any (fun i => ip.Name == i.Plugin.Name) then
    some (Outcome.fatal ("BUG: plugin '" ++ ip.Name ++
      "' being registered multiple times when only one instance is allowed."))
  else if l.any (fun i => i.String == name) then
    some (Outcome.error ("'" ++ name ++ "' is already instantiated"))
  else
    none

/-- What the outer loop of ActivePluginList has built in `out` once it has scanned the
instances `pre`: no name twice, a plugin for the name of every instance scanned, every
plugin that of the first instance scanned with its name, in the order of those first
instances. -/
def firstSeenInv (pre : List Instance) (out : List Plugin) : Prop :=
  (out.map (fun p => p.Name)).Nodup ∧
  (∀ i ∈ pre, ∃ p ∈ out, p.Name = i.Plugin.Name) ∧
  (∀ p ∈ out, ∃ i, pre.find? (fun i => i.Plugin.Name == p.Name) = some i ∧ i.Plugin = p) ∧
  out.Pairwise (fun p q =>
    pre.findIdx (fun i => i.Plugin.Name == p.Name)
      < pre.findIdx (fun i => i.Plugin.Name == q.Name))

/-! ## Sample data -/

/-- A plugin with the given name and multiplicity flag. -/
def mkPlugin (name : String) (multi : Bool) : Plugin :=
  { Name := name, Regex := "^!", Multi := multi, Broker := none, Settings := [], Secrets := [] }

/-- Every pattern compiles. -/
def compilesAll : Compiles := fun _ => true

/-- Instance at address 1: plugin "deploy" in channel "ops". -/
def instA : Instance := (mkPlugin "deploy" true).Instance 1 "ops"

/-- Instance at address 2: plugin "deploy" in channel "dev". -/
def instB : Instance := (mkPlugin "deploy" true).Instance 2 "dev"

/-- Instance at address 3: plugin "status" in channel "ops". -/
def instC : Instance := (mkPlugin "status" true).Instance 3 "ops"

/-- A preference store that is down: every write fails and the store is unchanged. -/
def failingSet : Pref → List Pref → Option GoString × List Pref :=
  fun _ store => (some "store unavailable", store)

/-- A preference store that works: every write succeeds and is recorded. -/
def workingSet : Pref → List Pref → Option GoString × List Pref :=
  fun p store => (none, store ++ [p])

/-- A preference store that refuses the key "locked" and records every other write. -/
def pickySet : Pref → List Pref → Option GoString × List Pref :=
  fun p store => if p.Key == "locked" then (some "key is locked", store) else (none, store ++ [p])

/-- A setting of plugin "deploy" in room "ops" with the given key. -/
def mkPref (key : String) : Pref :=
  { User := "", Room := "ops", Broker := "slack", Plugin := "deploy", Key := key,
    Default := "" }

/-- An event with the given body, from user "dave" in room "C42", with the given broker
and plugin instance. -/
def mkEvt (body : String) (broker : Option Broker) (inst : Option InstanceRef) : Evt :=
  { ID := "1", Body := body, Room := "ops", RoomId := "C42", User := "dave", UserId := "U7",
    Broker := broker, IsChat := true, instance_ := inst }

/-! ## Plugin.Register -/

theorem Plugin.Register_of_mem (p : Plugin) (pr : pluginRegistry)
    (h : ∃ q ∈ pr.plugins, q.Name = p.Name) : p.Register pr = (Outcome.nil, pr) := by
  have hany : pr.plugins.any (fun plugin => plugin.Name == p.Name) = true := by
    simpa [List.any_eq_true] using h
  simp [Plugin.Register, hany]

theorem Plugin.Register_of_not_mem (p : Plugin) (pr : pluginRegistry)
    (h : ¬ ∃ q ∈ pr.plugins, q.Name = p.Name) :
    p.Register pr = (Outcome.nil, { pr with plugins := pr.plugins ++ [p] }) := by
  have hany : ¬ pr.plugins.any (fun plugin => plugin.Name == p.Name) = true := by
    simpa [List.any_eq_true] using h
  simp [Plugin.Register, hany]

/-- Once `p` is the only plugin, registering plugins of the same name changes nothing. -/
theorem runCalls_same_name (compiles : Compiles) (p : Plugin) (insts : List Instance) :
    ∀ ps : List Plugin, (∀ q ∈ ps, q.Name = p.Name) →
      runCalls compiles (ps.map Call.pluginRegister) ⟨[p], insts⟩ = ⟨[p], insts⟩ ∧
      ∀ o ∈ runOutcomes compiles (ps.map Call.pluginRegister) ⟨[p], insts⟩, o = Outcome.nil := by
  intro ps
  induction ps with
  | nil => intro _; simp [runCalls, runOutcomes]
  | cons q qs ih =>
    intro h
    have hq : q.Name = p.Name := h q (List.mem_cons_self _ _)
    have hstep : q.Register ⟨[p], insts⟩ = (Outcome.nil, ⟨[p], insts⟩) :=
      Plugin.Register_of_mem q _ ⟨p, by simp, hq.symm⟩
    have ih2 := ih (fun r hr => h r (List.mem_cons_of_mem _ hr))
    simp only [List.map_cons, runCalls, runOutcomes, Call.exec, hstep, List.mem_cons]
    exact ⟨ih2.1, fun o ho => ho.elim id (ih2.2 o)⟩

/-- C1: Plugin.Register is idempotent by name.  When a registered plugin has the name
of `p` the registry is unchanged, otherwise `p` is appended at the end of the plugin
list; the call returns nil in both cases.  From the empty registry, a sequence of
Register calls that all use one name leaves the first plugin as the only entry, and
every call returns nil. -/
theorem C1_plugin_register_idempotent (compiles : Compiles) (pr : pluginRegistry) (p : Plugin) :
    ((∃ q ∈ pr.plugins, q.Name = p.Name) → p.Register pr = (Outcome.nil, pr)) ∧
    ((¬ ∃ q ∈ pr.plugins, q.Name = p.Name) →
      p.Register pr = (Outcome.nil, { pr with plugins := pr.plugins ++ [p] })) ∧
    (∀ ps : List Plugin, (∀ q ∈ ps, q.Name = p.Name) →
      (runCalls compiles ((p :: ps).map Call.pluginRegister) PluginRegistry).PluginList = [p] ∧
      ∀ o ∈ runOutcomes compiles ((p :: ps).map Call.pluginRegister) PluginRegistry,
        o = Outcome.nil) := by
  refine ⟨Plugin.Register_of_mem p pr, Plugin.Register_of_not_mem p pr, ?_⟩
  intro ps h
  have hfirst : p.Register PluginRegistry = (Outcome.nil, ⟨[p], []⟩) := by
    simp [Plugin.Register, PluginRegistry]
  have hrest := runCalls_same_name compiles p [] ps h
  simp only [List.map_cons, runCalls, runOutcomes, Call.exec, hfirst, List.mem_cons]
  refine ⟨by rw [hrest.1]; rfl, fun o ho => ho.elim id (hrest.2 o)⟩

/-- C1 at concrete plugins: a second plugin named "deploy" is ignored, a plugin named
"status" is appended, and three registrations under one name leave the first. -/
theorem C1_plugin_register_idempotent_witness :
    (mkPlugin "deploy" false).Register ⟨[mkPlugin "deploy" true], []⟩
      = (Outcome.nil, ⟨[mkPlugin "deploy" true], []⟩) ∧
    (mkPlugin "status" false).Register ⟨[mkPlugin "deploy" true], []⟩
      = (Outcome.nil, ⟨[mkPlugin "deploy" true, mkPlugin "status" false], []⟩) ∧
    (runCalls compilesAll
      ([mkPlugin "deploy" true, mkPlugin "deploy" false, mkPlugin "deploy" true].map
        Call.pluginRegister) PluginRegistry).PluginList = [mkPlugin "deploy" true] :=
  ⟨(C1_plugin_register_idempotent compilesAll ⟨[mkPlugin "deploy" true], []⟩
      (mkPlugin "deploy" false)).1 ⟨mkPlugin "deploy" true, by simp, by decide⟩,
   (C1_plugin_register_idempotent compilesAll ⟨[mkPlugin "deploy" true], []⟩
      (mkPlugin "status" false)).2.1 (by simp [mkPlugin]),
   ((C1_plugin_register_idempotent compilesAll PluginRegistry (mkPlugin "deploy" true)).2.2
      [mkPlugin "deploy" false, mkPlugin "deploy" true] (by simp [mkPlugin])).1⟩

/-! ## Instance.Register: the two refusals -/

/-- With `Multi` set, the scan stops with the error at an entry of the same identity
string. -/
theorem Instance.registerScan_multi_dup (ip : Hal.Plugin) (name : GoString)
    (hm : ip.Multi = true) (l : List Instance) (h : ∃ i ∈ l, i.String = name) :
    Instance.registerScan ip name l
      = some (Outcome.error ("'" ++ name ++ "' is already instantiated")) := by
  induction l with
  | nil => simp at h
  | cons i rest ih =>
    by_cases hi : i.String = name
    · simp [Instance.registerScan, hm, hi]
    · have hrest : ∃ j ∈ rest, j.String = name := by
        obtain ⟨j, hj, hjn⟩ := h
        rcases List.mem_cons.mp hj with rfl | hj
        · exact absurd hjn hi
        · exact ⟨j, hj, hjn⟩
      simp [Instance.registerScan, hm, hi, ih hrest]

/-- Without `Multi`, the scan stops at or before an entry with the plugin's name, with
the fatal condition or with the error. -/
theorem Instance.registerScan_single (ip : Hal.Plugin) (name : GoString)
    (hm : ip.Multi = false) (l : List Instance) (h : ∃ i ∈ l, i.Plugin.Name = ip.Name) :
    ∃ o, Instance.registerScan ip name l = some o ∧
      ((∃ m, o = Outcome.fatal m) ∨ (∃ m, o = Outcome.error m)) := by
  induction l with
  | nil => simp at h
  | cons i rest ih =>
    by_cases hn : ip.Name = i.Plugin.Name
    · have hf : Instance.registerScan ip name (i :: rest)
          = some (Outcome.fatal ("BUG: plugin '" ++ ip.Name ++
              "' being registered multiple times when only one instance is allowed.")) := by
        simp [Instance.registerScan, hm, hn]
      exact ⟨_, hf, Or.inl ⟨_, rfl⟩⟩
    · by_cases hi : i.String = name
      · have he : Instance.registerScan ip name (i :: rest)
            = some (Outcome.error ("'" ++ name ++ "' is already instantiated")) := by
          simp [Instance.registerScan, hm, hn, hi]
        exact ⟨_, he, Or.inr ⟨_, rfl⟩⟩
      · have hrest : ∃ j ∈ rest, j.Plugin.Name = ip.Name := by
          obtain ⟨j, hj, hjn⟩ := h
          rcases List.mem_cons.mp hj with rfl | hj
          · exact absurd hjn.symm hn
          · exact ⟨j, hj, hjn⟩
        obtain ⟨o, ho, hk⟩ := ih hrest
        exact ⟨o, by simp [Instance.registerScan, hm, hn, hi, ho], hk⟩

/-- C2: for an instance of a plugin with Multi == true, when a registered instance has
the same plugin name and the same channel, Instance.Register returns the error
"'<name>/<channel>' is already instantiated" and leaves the instance list and the
instance itself unchanged. -/
theorem C2_register_duplicate_identity (compiles : Compiles) (pr : pluginRegistry)
    (inst : Instance) (hm : inst.Plugin.Multi = true)
    (h : ∃ i ∈ pr.instances, i.Plugin.Name = inst.Plugin.Name ∧ i.Channel = inst.Channel) :
    inst.Register compiles pr
      = (Outcome.error ("'" ++ (inst.Plugin.Name ++ "/" ++ inst.Channel) ++
          "' is already instantiated"), pr, inst) := by
  have hdup : ∃ i ∈ pr.instances, i.String = inst.String := by
    obtain ⟨i, hi, hn, hc⟩ := h
    exact ⟨i, hi, by simp [Instance.String, hn, hc]⟩
  have hscan := Instance.registerScan_multi_dup inst.Plugin inst.String hm pr.instances hdup
  simp only [Instance.Register, hscan]
  rfl

/-- C2 at a concrete registry: "deploy" is already instantiated in channel "ops". -/
theorem C2_register_duplicate_identity_witness :
    ((mkPlugin "deploy" true).Instance 2 "ops").Register compilesAll
        ⟨[], [(mkPlugin "deploy" true).Instance 1 "ops"]⟩
      = (Outcome.error "'deploy/ops' is already instantiated",
          ⟨[], [(mkPlugin "deploy" true).Instance 1 "ops"]⟩,
          (mkPlugin "deploy" true).Instance 2 "ops") :=
  C2_register_duplicate_identity compilesAll ⟨[], [(mkPlugin "deploy" true).Instance 1 "ops"]⟩
    ((mkPlugin "deploy" true).Instance 2 "ops") rfl
    ⟨(mkPlugin "deploy" true).Instance 1 "ops", by simp, rfl, rfl⟩

/-- C3: for an instance of a plugin with Multi == false, when a registered instance (in
any channel) has the same plugin name, Instance.Register does not return nil and does
not append: the call ends in the fatal condition or in an error, and the registry and
the instance are unchanged. -/
theorem C3_register_single_refused (compiles : Compiles) (pr : pluginRegistry)
    (inst : Instance) (hm : inst.Plugin.Multi = false)
    (h : ∃ i ∈ pr.instances, i.Plugin.Name = inst.Plugin.Name) :
    ∃ o, inst.Register compiles pr = (o, pr, inst) ∧ o ≠ Outcome.nil ∧
      ((∃ m, o = Outcome.fatal m) ∨ (∃ m, o = Outcome.error m)) := by
  obtain ⟨o, ho, hk⟩ :=
    Instance.registerScan_single inst.Plugin inst.String hm pr.instances h
  refine ⟨o, by simp [Instance.Register, ho], ?_, hk⟩
  rcases hk with ⟨m, rfl⟩ | ⟨m, rfl⟩ <;> simp

/-- C3 at a concrete registry: the single-instance plugin "uptime" is instantiated in
"ops"; a second instance for "dev" is refused and the list keeps its one entry. -/
theorem C3_register_single_refused_witness :
    ∃ o, ((mkPlugin "uptime" false).Instance 2 "dev").Register compilesAll
        ⟨[], [(mkPlugin "uptime" false).Instance 1 "ops"]⟩
      = (o, ⟨[], [(mkPlugin "uptime" false).Instance 1 "ops"]⟩,
          (mkPlugin "uptime" false).Instance 2 "dev") ∧ o ≠ Outcome.nil ∧
      ((∃ m, o = Outcome.fatal m) ∨ (∃ m, o = Outcome.error m)) :=
  C3_register_single_refused compilesAll ⟨[], [(mkPlugin "uptime" false).Instance 1 "ops"]⟩
    ((mkPlugin "uptime" false).Instance 2 "dev") rfl
    ⟨(mkPlugin "uptime" false).Instance 1 "ops", by simp, rfl⟩

/-! ## Instance.Unregister -/

/-- When `x` is in the list, the loop of Unregister stops at its first occurrence. -/
theorem Instance.unregisterIdx_of_mem (x : Instance) :
    ∀ (l : List Instance) (j : Nat), (∃ i ∈ l, i.addr = x.addr) →
      ∃ front y back, l = front ++ y :: back ∧ y.addr = x.addr ∧
        (∀ i ∈ front, i.addr ≠ x.addr) ∧ Instance.unregisterIdx x l j = j + front.length := by
  intro l
  induction l with
  | nil => intro j h; simp at h
  | cons i rest ih =>
    intro j h
    by_cases hi : i.addr = x.addr
    · exact ⟨[], i, rest, rfl, hi, by simp, by simp [Instance.unregisterIdx, hi]⟩
    · have hrest : ∃ k ∈ rest, k.addr = x.addr := by
        obtain ⟨k, hk, hka⟩ := h
        rcases List.mem_cons.mp hk with rfl | hk
        · exact absurd hka hi
        · exact ⟨k, hk, hka⟩
      obtain ⟨front, y, back, hl, hy, hfront, hidx⟩ := ih (j + 1) hrest
      refine ⟨i :: front, y, back, by simp [hl], hy, ?_, ?_⟩
      · intro k hk
        rcases List.mem_cons.mp hk with rfl | hk
        · exact hi
        · exact hfront k hk
      · simp [Instance.unregisterIdx, hi, hidx]; omega

/-- When `x` is not in the list, the loop of Unregister leaves `idx` at 0. -/
theorem Instance.unregisterIdx_of_not_mem (x : Instance) :
    ∀ (l : List Instance) (j : Nat), (∀ i ∈ l, i.addr ≠ x.addr) →
      Instance.unregisterIdx x l j = 0 := by
  intro l
  induction l with
  | nil => intro j _; rfl
  | cons i rest ih =>
    intro j h
    have hi : i.addr ≠ x.addr := h i (List.mem_cons_self _ _)
    simp [Instance.unregisterIdx, hi, ih (j + 1) (fun k hk => h k (List.mem_cons_of_mem _ hk))]

/-- The loop of FindInstances computes a filter of the list. -/
theorem FindInstances_loop (c : Instance → Bool) (l : List Instance) :
    ∀ acc : List Instance,
      l.foldl (fun out i => if c i then out ++ [i] else out) acc = acc ++ l.filter c := by
  induction l with
  | nil => intro acc; simp
  | cons i rest ih =>
    intro acc
    by_cases hc : c i = true
    · simp [List.foldl_cons, hc, ih]
    · simp [List.foldl_cons, hc, ih]

theorem pluginRegistry.FindInstances_eq_filter (pr : pluginRegistry) (channel plugin : String) :
    pr.FindInstances channel plugin
      = pr.instances.filter (fun i => i.Plugin.Name == plugin && i.Channel == channel) := by
  simpa [pluginRegistry.FindInstances] using
    FindInstances_loop (fun i => i.Plugin.Name == plugin && i.Channel == channel)
      pr.instances []

/-- C4: when `x` is registered (an entry of the instance list is the same pointer),
Instance.Unregister returns nil and the new list is the old one with the first
occurrence of `x` removed: the list splits as `front ++ y :: back` with `y` the same
pointer as `x` and no entry of `front` that pointer, and the new list is
`front ++ back`; its length is one less; and when `x` occurred once, neither
InstanceList nor FindInstances returns `x` afterwards. -/
theorem C4_unregister_registered (pr : pluginRegistry) (x : Instance)
    (h : ∃ i ∈ pr.instances, i.addr = x.addr) :
    (x.Unregister pr).1 = Outcome.nil ∧
    (x.Unregister pr).2.plugins = pr.plugins ∧
    (∃ front y back, pr.instances = front ++ y :: back ∧ y.addr = x.addr ∧
      (∀ i ∈ front, i.addr ≠ x.addr) ∧ (x.Unregister pr).2.instances = front ++ back) ∧
    (x.Unregister pr).2.instances.length + 1 = pr.instances.length ∧
    (pr.instances.countP (fun i => i.addr == x.addr) = 1 →
      (∀ i ∈ (x.Unregister pr).2.InstanceList, i.addr ≠ x.addr) ∧
      ∀ channel plugin, ∀ i ∈ (x.Unregister pr).2.FindInstances channel plugin,
        i.addr ≠ x.addr) := by
  obtain ⟨front, y, back, hl, hy, hfront, hidx⟩ :=
    Instance.unregisterIdx_of_mem x pr.instances 0 h
  have hrun : x.Unregister pr = (Outcome.nil, { pr with instances := front ++ back }) := by
    have hidx2 : Instance.unregisterIdx x (front ++ y :: back) 0 = front.length := by
      rw [← hl, hidx]; omega
    simp [Instance.Unregister, hl, hidx2]
  refine ⟨by rw [hrun], by rw [hrun], ⟨front, y, back, hl, hy, hfront, by rw [hrun]⟩, ?_, ?_⟩
  · rw [hrun, hl]; simp; omega
  · intro hcount
    have hback : ∀ i ∈ back, i.addr ≠ x.addr := by
      intro i hi hia
      have hfc : front.countP (fun i => i.addr == x.addr) = 0 := by
        rw [List.countP_eq_zero]; intro k hk; simpa using hfront k hk
      have hbc : 0 < back.countP (fun i => i.addr == x.addr) :=
        List.countP_pos_iff.mpr ⟨i, hi, by simpa using hia⟩
      have hyb : (y.addr == x.addr) = true := by simp [hy]
      rw [hl, List.countP_append, List.countP_cons, hfc, if_pos hyb] at hcount
      omega
    have hall : ∀ i ∈ front ++ back, i.addr ≠ x.addr := by
      intro i hi
      rcases List.mem_append.mp hi with hi | hi
      · exact hfront i hi
      · exact hback i hi
    rw [hrun]
    refine ⟨hall, ?_⟩
    intro channel plugin i hi
    rw [pluginRegistry.FindInstances_eq_filter] at hi
    exact hall i (List.mem_of_mem_filter hi)

/-- C4 at a concrete registry: removing the middle one of three instances. -/
theorem C4_unregister_registered_witness :
    (∃ i ∈ [instA, instB, instC], i.addr = instB.addr) ∧
    (instB.Unregister ⟨[], [instA, instB, instC]⟩).1 = Outcome.nil ∧
    (instB.Unregister ⟨[], [instA, instB, instC]⟩).2.instances.length + 1 = 3 :=
  ⟨⟨instB, by simp, rfl⟩,
   (C4_unregister_registered ⟨[], [instA, instB, instC]⟩ instB ⟨instB, by simp, rfl⟩).1,
   (C4_unregister_registered ⟨[], [instA, instB, instC]⟩ instB ⟨instB, by simp, rfl⟩).2.2.2.1⟩

/-- When `x` is not in a non-empty list, Unregister returns nil and removes the entry
at index 0. -/
theorem Instance.Unregister_of_not_mem (x i : Instance) (rest : List Instance)
    (plugins : List Hal.Plugin) (h : ∀ k ∈ i :: rest, k.addr ≠ x.addr) :
    x.Unregister ⟨plugins, i :: rest⟩ = (Outcome.nil, ⟨plugins, rest⟩) := by
  simp [Instance.Unregister, Instance.unregisterIdx_of_not_mem x (i :: rest) 0 h]

/-- When `x` is not in the empty list, the slice expression of Unregister is out of
range and the call panics. -/
theorem Instance.Unregister_empty (x : Instance) (plugins : List Hal.Plugin) :
    x.Unregister ⟨plugins, []⟩ = (Outcome.panic, ⟨plugins, []⟩) := by
  simp [Instance.Unregister, Instance.unregisterIdx]

/-- C5, the code at a failing input: `instC` is not registered, the registered
instances are `instA` and `instB`; Unregister of `instC` returns nil and removes
`instA`, so the list is not left unchanged. -/
theorem C5_unregister_absent_removes_head :
    (∀ i ∈ [instA, instB], i.addr ≠ instC.addr) ∧
    instC.Unregister ⟨[], [instA, instB]⟩ = (Outcome.nil, ⟨[], [instB]⟩) ∧
    (instC.Unregister ⟨[], [instA, instB]⟩).2.instances ≠ [instA, instB] := by
  refine ⟨by decide, by decide, by decide⟩

/-! ## ActivePluginList and InactivePluginList -/

/-- The flag loops of both list functions: the flag ends up set when it was set or an
element of the list satisfies the test. -/
theorem flag_loop {α : Type} (c : α → Bool) (l : List α) :
    ∀ b : Bool, l.foldl (fun flag a => if c a then true else flag) b = (b || l.any c) := by
  induction l with
  | nil => intro b; simp
  | cons a rest ih =>
    intro b
    rw [List.foldl_cons, ih]
    by_cases hc : c a = true <;> simp [hc]

theorem activeStep_eq (out : List Plugin) (i : Instance) :
    activeStep out i
      = if out.any (fun p => p.Name == i.Plugin.Name) then out else out ++ [i.Plugin] := by
  simp only [activeStep, flag_loop, Bool.false_or]
  by_cases h : out.any (fun p => p.Name == i.Plugin.Name) = true
  · simp [h]
  · simp [h]

theorem pluginRegistry.ActivePluginList_eq (pr : pluginRegistry) :
    pr.ActivePluginList = pr.instances.foldl activeStep [] := rfl

/-- Names in the result of the outer loop of ActivePluginList: those of the start
value and those of the plugins of the instances scanned. -/
theorem activeLoop_names (l : List Instance) :
    ∀ (acc : List Plugin) (n : String),
      (∃ p ∈ l.foldl activeStep acc, p.Name = n) ↔
        ((∃ p ∈ acc, p.Name = n) ∨ ∃ i ∈ l, i.Plugin.Name = n) := by
  induction l with
  | nil => intro acc n; simp
  | cons i rest ih =>
    intro acc n
    rw [List.foldl_cons, ih, activeStep_eq]
    by_cases h : acc.any (fun p => p.Name == i.Plugin.Name) = true
    · rw [if_pos h]
      obtain ⟨q, hq, hqn⟩ := List.any_eq_true.mp h
      have hqn2 : q.Name = i.Plugin.Name := by simpa using hqn
      constructor
      · rintro (h1 | ⟨k, hk, hkn⟩)
        · exact Or.inl h1
        · exact Or.inr ⟨k, List.mem_cons_of_mem _ hk, hkn⟩
      · rintro (h1 | ⟨k, hk, hkn⟩)
        · exact Or.inl h1
        · rcases List.mem_cons.mp hk with rfl | hk
          · exact Or.inl ⟨q, hq, hqn2.trans hkn⟩
          · exact Or.inr ⟨k, hk, hkn⟩
    · rw [if_neg h]
      constructor
      · rintro (⟨p, hp, hpn⟩ | ⟨k, hk, hkn⟩)
        · rcases List.mem_append.mp hp with hp | hp
          · exact Or.inl ⟨p, hp, hpn⟩
          · have hpi : p = i.Plugin := by simpa using hp
            exact Or.inr ⟨i, List.mem_cons_self _ _, hpi ▸ hpn⟩
        · exact Or.inr ⟨k, List.mem_cons_of_mem _ hk, hkn⟩
      · rintro (⟨p, hp, hpn⟩ | ⟨k, hk, hkn⟩)
        · exact Or.inl ⟨p, List.mem_append_left _ hp, hpn⟩
        · rcases List.mem_cons.mp hk with rfl | hk
          · exact Or.inl ⟨k.Plugin, by simp, hkn⟩
          · exact Or.inr ⟨k, hk, hkn⟩

/-- Elements of the result of the outer loop of ActivePluginList: from the start value,
or the plugin of an instance scanned. -/
theorem activeLoop_mem (l : List Instance) :
    ∀ (acc : List Plugin) (p : Plugin), p ∈ l.foldl activeStep acc →
      p ∈ acc ∨ ∃ i ∈ l, i.Plugin = p := by
  induction l with
  | nil => intro acc p hp; exact Or.inl (by simpa using hp)
  | cons i rest ih =>
    intro acc p hp
    rw [List.foldl_cons] at hp
    rcases ih _ p hp with h | ⟨k, hk, hkp⟩
    · rw [activeStep_eq] at h
      by_cases hc : acc.any (fun p => p.Name == i.Plugin.Name) = true
      · rw [if_pos hc] at h; exact Or.inl h
      · rw [if_neg hc] at h
        rcases List.mem_append.mp h with h | h
        · exact Or.inl h
        · exact Or.inr ⟨i, List.mem_cons_self _ _, (by simpa using h : p = i.Plugin).symm⟩
    · exact Or.inr ⟨k, List.mem_cons_of_mem _ hk, hkp⟩

/-- The names in ActivePluginList are the plugin names of the registered instances. -/
theorem pluginRegistry.ActivePluginList_names (pr : pluginRegistry) (n : String) :
    (∃ p ∈ pr.ActivePluginList, p.Name = n) ↔ ∃ i ∈ pr.instances, i.Plugin.Name = n := by
  rw [pluginRegistry.ActivePluginList_eq, activeLoop_names]
  simp

/-- InactivePluginList is the plugin list without the plugins whose name is the plugin
name of an instance. -/
theorem pluginRegistry.InactivePluginList_eq_filter (pr : pluginRegistry) :
    pr.InactivePluginList
      = pr.plugins.filter (fun p => !pr.instances.any (fun i => p.Name == i.Plugin.Name)) := by
  have hloop : ∀ (l acc : List Plugin),
      l.foldl (fun out p =>
        let active := pr.InstanceList.foldl
          (fun active i => if p.Name == i.Plugin.Name then true else active) false
        if !active then out ++ [p] else out) acc
      = acc ++ l.filter (fun p => !pr.instances.any (fun i => p.Name == i.Plugin.Name)) := by
    intro l
    induction l with
    | nil => intro acc; simp
    | cons p rest ih =>
      intro acc
      rw [List.foldl_cons, ih]
      simp only [flag_loop, Bool.false_or, pluginRegistry.InstanceList]
      by_cases h : pr.instances.any (fun i => p.Name == i.Plugin.Name) = true
      · simp [h]
      · simp [h]
  simpa [pluginRegistry.InactivePluginList, pluginRegistry.PluginList] using hloop pr.plugins []

/-- Membership in InactivePluginList. -/
theorem pluginRegistry.mem_InactivePluginList (pr : pluginRegistry) (p : Plugin) :
    p ∈ pr.InactivePluginList ↔ p ∈ pr.plugins ∧ ∀ i ∈ pr.instances, i.Plugin.Name ≠ p.Name := by
  rw [pluginRegistry.InactivePluginList_eq_filter, List.mem_filter]
  constructor
  · rintro ⟨hp, hf⟩
    refine ⟨hp, fun i hi hn => ?_⟩
    have : pr.instances.any (fun i => p.Name == i.Plugin.Name) = true :=
      List.any_eq_true.mpr ⟨i, hi, by simp [hn]⟩
    simp [this] at hf
  · rintro ⟨hp, hf⟩
    refine ⟨hp, ?_⟩
    have : ¬ pr.instances.any (fun i => p.Name == i.Plugin.Name) = true := by
      intro h
      obtain ⟨i, hi, hn⟩ := List.any_eq_true.mp h
      have hn2 : p.Name = i.Plugin.Name := by simpa using hn
      exact hf i hi hn2.symm
    simpa using this

/-- In every registry: each registered plugin has its name in ActivePluginList or is
in InactivePluginList; InactivePluginList holds registered plugins only and
ActivePluginList plugins of registered instances only. -/
theorem pluginRegistry.active_inactive_cover (pr : pluginRegistry) :
    (∀ p ∈ pr.PluginList,
      (∃ q ∈ pr.ActivePluginList, q.Name = p.Name) ∨ p ∈ pr.InactivePluginList) ∧
    (∀ p ∈ pr.InactivePluginList, p ∈ pr.PluginList) ∧
    (∀ p ∈ pr.ActivePluginList, ∃ i ∈ pr.InstanceList, i.Plugin = p) := by
  refine ⟨?_, ?_, ?_⟩
  · intro p hp
    by_cases h : ∃ i ∈ pr.instances, i.Plugin.Name = p.Name
    · exact Or.inl ((pr.ActivePluginList_names p.Name).mpr h)
    · refine Or.inr ((pr.mem_InactivePluginList p).mpr ⟨hp, fun i hi hn => h ⟨i, hi, hn⟩⟩)
  · intro p hp
    exact ((pr.mem_InactivePluginList p).mp hp).1
  · intro p hp
    rw [pluginRegistry.ActivePluginList_eq] at hp
    rcases activeLoop_mem pr.instances [] p hp with h | h
    · simp at h
    · exact h

/-- C7: in every registry ActivePluginList and InactivePluginList are disjoint: no
plugin name occurs in both. -/
theorem C7_active_inactive_disjoint (pr : pluginRegistry) :
    ∀ p ∈ pr.ActivePluginList, ∀ q ∈ pr.InactivePluginList, p.Name ≠ q.Name := by
  intro p hp q hq hpq
  obtain ⟨i, hi, hn⟩ := (pr.ActivePluginList_names p.Name).mp ⟨p, hp, rfl⟩
  exact ((pr.mem_InactivePluginList q).mp hq).2 i hi (hn.trans hpq)

/-- C7 at a concrete registry: "deploy" is active, "status" is inactive. -/
theorem C7_active_inactive_disjoint_witness :
    mkPlugin "deploy" true ∈ pluginRegistry.ActivePluginList
      ⟨[mkPlugin "deploy" true, mkPlugin "status" true], [instA]⟩ ∧
    mkPlugin "status" true ∈ pluginRegistry.InactivePluginList
      ⟨[mkPlugin "deploy" true, mkPlugin "status" true], [instA]⟩ ∧
    (mkPlugin "deploy" true).Name ≠ (mkPlugin "status" true).Name :=
  ⟨by decide, by decide,
   C7_active_inactive_disjoint ⟨[mkPlugin "deploy" true, mkPlugin "status" true], [instA]⟩
     (mkPlugin "deploy" true) (by decide) (mkPlugin "status" true) (by decide)⟩

/-- C6 as stated fails: after the single call `instA.Register()` on the empty registry
(the plugin of `instA` was never registered) ActivePluginList holds the plugin
"deploy" and PluginList holds no plugin of that name. -/
theorem C6_counterexample_unregistered_plugin :
    (runOutcomes compilesAll [Call.instanceRegister instA] PluginRegistry = [Outcome.nil]) ∧
    mkPlugin "deploy" true ∈
      (runCalls compilesAll [Call.instanceRegister instA] PluginRegistry).ActivePluginList ∧
    ¬ ∃ q ∈ (runCalls compilesAll [Call.instanceRegister instA] PluginRegistry).PluginList,
        q.Name = (mkPlugin "deploy" true).Name := by
  refine ⟨by decide, by decide, by decide⟩

/-- C6, amended: in every state reached from the empty registry by Plugin.Register,
Instance.Register and Instance.Unregister calls, every registered plugin has its name
in ActivePluginList or is in InactivePluginList, InactivePluginList holds registered
plugins only, and ActivePluginList holds plugins of registered instances only; when
the plugin name of every registered instance is the name of a registered plugin, the
names of the two lists together are exactly the names of PluginList. -/
theorem C6_active_inactive_cover (compiles : Compiles) (calls : List Call) :
    (∀ p ∈ (runCalls compiles calls PluginRegistry).PluginList,
      (∃ q ∈ (runCalls compiles calls PluginRegistry).ActivePluginList, q.Name = p.Name) ∨
        p ∈ (runCalls compiles calls PluginRegistry).InactivePluginList) ∧
    (∀ p ∈ (runCalls compiles calls PluginRegistry).InactivePluginList,
      p ∈ (runCalls compiles calls PluginRegistry).PluginList) ∧
    (∀ p ∈ (runCalls compiles calls PluginRegistry).ActivePluginList,
      ∃ i ∈ (runCalls compiles calls PluginRegistry).InstanceList, i.Plugin = p) ∧
    ((∀ i ∈ (runCalls compiles calls PluginRegistry).InstanceList,
        ∃ q ∈ (runCalls compiles calls PluginRegistry).PluginList, q.Name = i.Plugin.Name) →
      ∀ n : String,
        ((∃ p ∈ (runCalls compiles calls PluginRegistry).ActivePluginList, p.Name = n) ∨
          (∃ p ∈ (runCalls compiles calls PluginRegistry).InactivePluginList, p.Name = n)) ↔
        ∃ p ∈ (runCalls compiles calls PluginRegistry).PluginList, p.Name = n) := by
  generalize runCalls compiles calls PluginRegistry = pr
  obtain ⟨h1, h2, h3⟩ := pr.active_inactive_cover
  refine ⟨h1, h2, h3, ?_⟩
  intro hreg n
  constructor
  · rintro (⟨p, hp, hn⟩ | ⟨p, hp, hn⟩)
    · obtain ⟨i, hi, hip⟩ := h3 p hp
      obtain ⟨q, hq, hqn⟩ := hreg i hi
      exact ⟨q, hq, by rw [hqn, hip, hn]⟩
    · exact ⟨p, h2 p hp, hn⟩
  · rintro ⟨p, hp, hn⟩
    rcases h1 p hp with ⟨q, hq, hqn⟩ | h
    · exact Or.inl ⟨q, hq, hqn.trans hn⟩
    · exact Or.inr ⟨p, h, hn⟩

/-- C6, amended, at a concrete run: "deploy" and "status" are registered and "deploy" is
instantiated; the names of the two lists together are those of PluginList. -/
theorem C6_active_inactive_cover_witness :
    (∀ i ∈ (runCalls compilesAll [Call.pluginRegister (mkPlugin "deploy" true),
          Call.instanceRegister instA, Call.pluginRegister (mkPlugin "status" true)]
          PluginRegistry).InstanceList,
        ∃ q ∈ (runCalls compilesAll [Call.pluginRegister (mkPlugin "deploy" true),
          Call.instanceRegister instA, Call.pluginRegister (mkPlugin "status" true)]
          PluginRegistry).PluginList, q.Name = i.Plugin.Name) ∧
    (((∃ p ∈ (runCalls compilesAll [Call.pluginRegister (mkPlugin "deploy" true),
          Call.instanceRegister instA, Call.pluginRegister (mkPlugin "status" true)]
          PluginRegistry).ActivePluginList, p.Name = "status") ∨
      (∃ p ∈ (runCalls compilesAll [Call.pluginRegister (mkPlugin "deploy" true),
          Call.instanceRegister instA, Call.pluginRegister (mkPlugin "status" true)]
          PluginRegistry).InactivePluginList, p.Name = "status")) ↔
      ∃ p ∈ (runCalls compilesAll [Call.pluginRegister (mkPlugin "deploy" true),
          Call.instanceRegister instA, Call.pluginRegister (mkPlugin "status" true)]
          PluginRegistry).PluginList, p.Name = "status") :=
  ⟨by decide,
   (C6_active_inactive_cover compilesAll [Call.pluginRegister (mkPlugin "deploy" true),
      Call.instanceRegister instA, Call.pluginRegister (mkPlugin "status" true)]).2.2.2
      (by decide) "status"⟩

/-! ## Sequences of Instance.Register calls -/

/-- A scan that runs to its end has met no entry of the same identity string and, for
a plugin without `Multi`, no entry of the same plugin name. -/
theorem Instance.registerScan_none (ip : Hal.Plugin) (name : GoString) (l : List Instance)
    (h : Instance.registerScan ip name l = none) :
    ∀ i ∈ l, i.String ≠ name ∧ (ip.Multi = false → i.Plugin.Name ≠ ip.Name) := by
  induction l with
  | nil => intro i hi; simp at hi
  | cons k rest ih =>
    rw [Instance.registerScan] at h
    by_cases h1 : (!ip.Multi && ip.Name == k.Plugin.Name) = true
    · rw [if_pos h1] at h; simp at h
    · rw [if_neg h1] at h
      by_cases h2 : k.String = name
      · simp [h2] at h
      · simp only [beq_iff_eq, h2, if_false] at h
        intro i hi
        rcases List.mem_cons.mp hi with rfl | hi
        · refine ⟨h2, fun hm hn => h1 ?_⟩
          simp [hm, hn]
        · exact ih h i hi

/-- With `Multi` set, the scan runs to its end when no entry has the identity string. -/
theorem Instance.registerScan_fresh (ip : Hal.Plugin) (name : GoString) (hm : ip.Multi = true)
    (l : List Instance) (h : ∀ i ∈ l, i.String ≠ name) :
    Instance.registerScan ip name l = none := by
  induction l with
  | nil => rfl
  | cons k rest ih =>
    have hk : k.String ≠ name := h k (List.mem_cons_self _ _)
    simp [Instance.registerScan, hm, hk, ih (fun i hi => h i (List.mem_cons_of_mem _ hi))]

/-- Register leaves the plugin, the channel and so the identity string of the instance
as they were. -/
theorem Instance.registered_String (inst : Instance) :
    inst.withDefaultRegex.withCompiled.String = inst.String ∧
    inst.withDefaultRegex.withCompiled.Plugin = inst.Plugin ∧
    inst.withDefaultRegex.withCompiled.Channel = inst.Channel ∧
    inst.withDefaultRegex.withCompiled.addr = inst.addr := by
  unfold Instance.withDefaultRegex Instance.withCompiled Instance.String
  split <;> simp

/-- Register of an instance with `Multi` set, a fresh identity string and a pattern that
compiles returns nil and appends the instance. -/
theorem Instance.Register_fresh (compiles : Compiles) (inst : Instance) (pr : pluginRegistry)
    (hm : inst.Plugin.Multi = true) (hfresh : ∀ i ∈ pr.instances, i.String ≠ inst.String)
    (hc : compiles inst.withDefaultRegex.Regex = true) :
    inst.Register compiles pr
      = (Outcome.nil,
          { pr with instances := pr.instances ++ [inst.withDefaultRegex.withCompiled] },
          inst.withDefaultRegex.withCompiled) := by
  simp [Instance.Register, Instance.registerScan_fresh inst.Plugin inst.String hm pr.instances hfresh,
    hc]

/-- Registering instances with pairwise distinct identity strings, none of them in use,
appends every one of them. -/
theorem runCalls_register_fresh (compiles : Compiles) (plugins : List Plugin) :
    ∀ (insts base : List Instance),
      insts.Pairwise (fun a b => a.String ≠ b.String) →
      (∀ b ∈ base, ∀ i ∈ insts, b.String ≠ i.String) →
      (∀ i ∈ insts, i.Plugin.Multi = true) →
      (∀ i ∈ insts, compiles i.withDefaultRegex.Regex = true) →
      runCalls compiles (insts.map Call.instanceRegister) ⟨plugins, base⟩
        = ⟨plugins, base ++ insts.map (fun i => i.withDefaultRegex.withCompiled)⟩ ∧
      runOutcomes compiles (insts.map Call.instanceRegister) ⟨plugins, base⟩
        = List.replicate insts.length Outcome.nil := by
  intro insts
  induction insts with
  | nil => intro base _ _ _ _; simp [runCalls, runOutcomes]
  | cons i rest ih =>
    intro base hpw hbase hmulti hcomp
    have hstep := Instance.Register_fresh compiles i ⟨plugins, base⟩
      (hmulti i (List.mem_cons_self _ _))
      (fun b hb => hbase b hb i (List.mem_cons_self _ _))
      (hcomp i (List.mem_cons_self _ _))
    have hpw2 := List.pairwise_cons.mp hpw
    have hbase2 : ∀ b ∈ base ++ [i.withDefaultRegex.withCompiled], ∀ k ∈ rest,
        b.String ≠ k.String := by
      intro b hb k hk
      rcases List.mem_append.mp hb with hb | hb
      · exact hbase b hb k (List.mem_cons_of_mem _ hk)
      · have hbi : b = i.withDefaultRegex.withCompiled := by simpa using hb
        rw [hbi, (Instance.registered_String i).1]
        exact hpw2.1 k hk
    have ih2 := ih (base ++ [i.withDefaultRegex.withCompiled]) hpw2.2 hbase2
      (fun k hk => hmulti k (List.mem_cons_of_mem _ hk))
      (fun k hk => hcomp k (List.mem_cons_of_mem _ hk))
    simp only [List.map_cons, runCalls, runOutcomes, Call.exec, hstep, List.length_cons,
      List.replicate_succ]
    exact ⟨by rw [ih2.1]; simp, by rw [ih2.2]⟩

/-- C8 as stated fails: the pairs ("a/b", "c") and ("a", "b/c") are distinct, both
plugins have Multi set and every pattern compiles, but both instances have the
identity string "a/b/c"; the second Register returns the error and one instance is
left. -/
theorem C8_counterexample_identity_collision :
    [(mkPlugin "a/b" true).Instance 1 "c", (mkPlugin "a" true).Instance 2 "b/c"].Pairwise
      (fun x y => ¬ (x.Plugin.Name = y.Plugin.Name ∧ x.Channel = y.Channel)) ∧
    (∀ i ∈ [(mkPlugin "a/b" true).Instance 1 "c", (mkPlugin "a" true).Instance 2 "b/c"],
      i.Plugin.Multi = true ∧ compilesAll i.withDefaultRegex.Regex = true) ∧
    runOutcomes compilesAll
      ([(mkPlugin "a/b" true).Instance 1 "c", (mkPlugin "a" true).Instance 2 "b/c"].map
        Call.instanceRegister) PluginRegistry
      = [Outcome.nil, Outcome.error "'a/b/c' is already instantiated"] ∧
    (runCalls compilesAll
      ([(mkPlugin "a/b" true).Instance 1 "c", (mkPlugin "a" true).Instance 2 "b/c"].map
        Call.instanceRegister) PluginRegistry).InstanceList.length = 1 := by
  refine ⟨by decide, by decide, by decide, by decide⟩

/-- C8, amended: from the empty registry, registering one after another N instances
whose identity strings `Name/Channel` are pairwise distinct, whose plugins all have
Multi == true and whose patterns compile makes every Instance.Register call return nil
and leaves exactly the N instances in the list, in call order. -/
theorem C8_register_distinct_identities (compiles : Compiles) (insts : List Instance)
    (hdistinct : insts.Pairwise (fun a b => a.String ≠ b.String))
    (hmulti : ∀ i ∈ insts, i.Plugin.Multi = true)
    (hcomp : ∀ i ∈ insts, compiles i.withDefaultRegex.Regex = true) :
    runOutcomes compiles (insts.map Call.instanceRegister) PluginRegistry
      = List.replicate insts.length Outcome.nil ∧
    (runCalls compiles (insts.map Call.instanceRegister) PluginRegistry).InstanceList
      = insts.map (fun i => i.withDefaultRegex.withCompiled) ∧
    (runCalls compiles (insts.map Call.instanceRegister) PluginRegistry).InstanceList.length
      = insts.length ∧
    (runCalls compiles (insts.map Call.instanceRegister) PluginRegistry).InstanceList.map
        (fun i => (i.addr, i.Plugin, i.Channel))
      = insts.map (fun i => (i.addr, i.Plugin, i.Channel)) := by
  obtain ⟨hrun, hout⟩ := runCalls_register_fresh compiles [] insts [] hdistinct
    (fun b hb => by simp at hb) hmulti hcomp
  have hlist : (runCalls compiles (insts.map Call.instanceRegister) PluginRegistry).InstanceList
      = insts.map (fun i => i.withDefaultRegex.withCompiled) := by
    show (runCalls compiles (insts.map Call.instanceRegister) ⟨[], []⟩).InstanceList = _
    rw [hrun]; simp [pluginRegistry.InstanceList]
  refine ⟨hout, hlist, by rw [hlist]; simp, ?_⟩
  rw [hlist, List.map_map]
  apply List.map_congr_left
  intro i _
  obtain ⟨_, h2, h3, h4⟩ := Instance.registered_String i
  simp [h2, h3, h4]

/-- C8, amended, at three concrete instances. -/
theorem C8_register_distinct_identities_witness :
    runOutcomes compilesAll ([instA, instB, instC].map Call.instanceRegister) PluginRegistry
      = List.replicate 3 Outcome.nil ∧
    (runCalls compilesAll ([instA, instB, instC].map Call.instanceRegister)
        PluginRegistry).InstanceList.length = 3 :=
  ⟨(C8_register_distinct_identities compilesAll [instA, instB, instC] (by decide) (by decide)
      (by decide)).1,
   (C8_register_distinct_identities compilesAll [instA, instB, instC] (by decide) (by decide)
      (by decide)).2.2.1⟩

/-! ## Invariants of the instance list -/

/-- The list Unregister leaves is a sublist of the list it found. -/
theorem Instance.Unregister_sublist (x : Instance) (pr : pluginRegistry) :
    (x.Unregister pr).2.instances.Sublist pr.instances := by
  unfold Instance.Unregister
  simp only
  split
  · have h : (pr.instances.take (Instance.unregisterIdx x pr.instances 0) ++
        pr.instances.drop (Instance.unregisterIdx x pr.instances 0 + 1)).Sublist
        (pr.instances.take (Instance.unregisterIdx x pr.instances 0) ++
          pr.instances.drop (Instance.unregisterIdx x pr.instances 0)) :=
      List.Sublist.append (List.Sublist.refl _)
        (List.drop_sublist_drop_left pr.instances (Nat.le_succ _))
    rwa [List.take_append_drop] at h
  · exact List.Sublist.refl _

/-- Every call keeps the instance list ordered so that an entry differs from every
earlier entry in its identity string and, when its plugin is without `Multi`, in its
plugin name. -/
theorem Call.exec_preserves (compiles : Compiles) (c : Call) (pr : pluginRegistry)
    (h : pr.instances.Pairwise (fun a b =>
      a.String ≠ b.String ∧ (b.Plugin.Multi = false → a.Plugin.Name ≠ b.Plugin.Name))) :
    (c.exec compiles pr).2.instances.Pairwise (fun a b =>
      a.String ≠ b.String ∧ (b.Plugin.Multi = false → a.Plugin.Name ≠ b.Plugin.Name)) := by
  cases c with
  | pluginRegister p =>
    simp only [Call.exec, Plugin.Register]
    split <;> exact h
  | instanceRegister inst =>
    simp only [Call.exec, Instance.Register]
    cases hscan : Instance.registerScan inst.Plugin inst.String pr.instances with
    | some o => exact h
    | none =>
      simp only
      split
      · have hnone := Instance.registerScan_none inst.Plugin inst.String pr.instances hscan
        obtain ⟨hs, hp, _, _⟩ := Instance.registered_String inst
        refine List.pairwise_append.mpr ⟨h, List.pairwise_singleton _ _, ?_⟩
        intro a ha b hb
        have hbi : b = inst.withDefaultRegex.withCompiled := by simpa using hb
        rw [hbi, hs, hp]
        exact hnone a ha
      · exact h
  | instanceUnregister inst =>
    exact List.Pairwise.sublist (Instance.Unregister_sublist inst pr) h

/-- The ordering of `Call.exec_preserves` holds after every sequence of calls from the
empty registry. -/
theorem runCalls_ordered (compiles : Compiles) (calls : List Call) :
    (runCalls compiles calls PluginRegistry).instances.Pairwise (fun a b =>
      a.String ≠ b.String ∧ (b.Plugin.Multi = false → a.Plugin.Name ≠ b.Plugin.Name)) := by
  have hgen : ∀ (cs : List Call) (pr : pluginRegistry),
      pr.instances.Pairwise (fun a b =>
        a.String ≠ b.String ∧ (b.Plugin.Multi = false → a.Plugin.Name ≠ b.Plugin.Name)) →
      (runCalls compiles cs pr).instances.Pairwise (fun a b =>
        a.String ≠ b.String ∧ (b.Plugin.Multi = false → a.Plugin.Name ≠ b.Plugin.Name)) := by
    intro cs
    induction cs with
    | nil => intro pr h; exact h
    | cons c rest ih => intro pr h; exact ih _ (Call.exec_preserves compiles c pr h)
  exact hgen calls PluginRegistry List.Pairwise.nil

/-- C9: in every state reached from the empty registry by a sequence of registry calls
(Instance.Register and Instance.Unregister, and Plugin.Register as well), no two
entries of the instance list have both the same plugin name and the same channel. -/
theorem C9_identity_unique (compiles : Compiles) (calls : List Call) :
    (runCalls compiles calls PluginRegistry).InstanceList.Pairwise
      (fun a b => ¬ (a.Plugin.Name = b.Plugin.Name ∧ a.Channel = b.Channel)) := by
  refine List.Pairwise.imp ?_ (runCalls_ordered compiles calls)
  intro a b hab hsame
  exact hab.1 (by simp [Instance.String, hsame.1, hsame.2])

/-- C10 as stated fails: "uptime" without Multi is registered in "ops", then an instance
of another plugin object named "uptime", with Multi set, is registered in "dev".  Both
calls return nil, and the single-instance plugin has two registered instances. -/
theorem C10_counterexample_second_plugin_object :
    runOutcomes compilesAll
      [Call.instanceRegister ((mkPlugin "uptime" false).Instance 1 "ops"),
       Call.instanceRegister ((mkPlugin "uptime" true).Instance 2 "dev")] PluginRegistry
      = [Outcome.nil, Outcome.nil] ∧
    (runCalls compilesAll
      [Call.instanceRegister ((mkPlugin "uptime" false).Instance 1 "ops"),
       Call.instanceRegister ((mkPlugin "uptime" true).Instance 2 "dev")]
      PluginRegistry).InstanceList
      = [((mkPlugin "uptime" false).Instance 1 "ops").withCompiled,
         ((mkPlugin "uptime" true).Instance 2 "dev").withCompiled] ∧
    ((mkPlugin "uptime" false).Instance 1 "ops").withCompiled.Plugin.Multi = false ∧
    ((mkPlugin "uptime" true).Instance 2 "dev").withCompiled.Plugin.Name
      = ((mkPlugin "uptime" false).Instance 1 "ops").withCompiled.Plugin.Name := by
  refine ⟨by decide, by decide, by decide, by decide⟩

/-- C10, amended: in every state reached from the empty registry by a sequence of
registry calls, for every registered instance whose plugin has Multi == false no entry
before it in the instance list has the same plugin name; and when registered instances
of equal plugin name have equal Multi flags, no other registered instance at all has
the plugin name of a registered instance whose plugin has Multi == false. -/
theorem C10_single_instance (compiles : Compiles) (calls : List Call) :
    (runCalls compiles calls PluginRegistry).InstanceList.Pairwise
      (fun a b => b.Plugin.Multi = false → a.Plugin.Name ≠ b.Plugin.Name) ∧
    ((∀ a ∈ (runCalls compiles calls PluginRegistry).InstanceList,
        ∀ b ∈ (runCalls compiles calls PluginRegistry).InstanceList,
          a.Plugin.Name = b.Plugin.Name → a.Plugin.Multi = b.Plugin.Multi) →
      (runCalls compiles calls PluginRegistry).InstanceList.Pairwise
        (fun a b => (a.Plugin.Multi = false ∨ b.Plugin.Multi = false) →
          a.Plugin.Name ≠ b.Plugin.Name)) := by
  have hord : (runCalls compiles calls PluginRegistry).InstanceList.Pairwise
      (fun a b => b.Plugin.Multi = false → a.Plugin.Name ≠ b.Plugin.Name) :=
    List.Pairwise.imp (fun hab => hab.2) (runCalls_ordered compiles calls)
  refine ⟨hord, fun hagree => ?_⟩
  refine List.Pairwise.imp_of_mem ?_ hord
  intro a b ha hb hab hm hn
  rcases hm with hm | hm
  · exact hab (by rw [← hagree a ha b hb hn]; exact hm) hn
  · exact hab hm hn

/-- C10, amended, at a concrete run: "uptime" without Multi is registered in "ops"; the
second Register of the same plugin, for "dev", ends in the fatal condition and the
list keeps the one instance. -/
theorem C10_single_instance_witness :
    runOutcomes compilesAll
      [Call.instanceRegister ((mkPlugin "uptime" false).Instance 1 "ops"),
       Call.instanceRegister ((mkPlugin "uptime" false).Instance 2 "dev")] PluginRegistry
      = [Outcome.nil, Outcome.fatal
          "BUG: plugin 'uptime' being registered multiple times when only one instance is allowed."] ∧
    (runCalls compilesAll
      [Call.instanceRegister ((mkPlugin "uptime" false).Instance 1 "ops"),
       Call.instanceRegister ((mkPlugin "uptime" false).Instance 2 "dev")]
      PluginRegistry).InstanceList.Pairwise
        (fun a b => (a.Plugin.Multi = false ∨ b.Plugin.Multi = false) →
          a.Plugin.Name ≠ b.Plugin.Name) :=
  ⟨by decide,
   (C10_single_instance compilesAll
      [Call.instanceRegister ((mkPlugin "uptime" false).Instance 1 "ops"),
       Call.instanceRegister ((mkPlugin "uptime" false).Instance 2 "dev")]).2 (by decide)⟩

/-! ## The list functions, in full -/

/-- C12: InactivePluginList is the plugin list filtered by "no registered instance has a
plugin of this name", so it holds exactly those registered plugins, in plugin-list
order. -/
theorem C12_inactive_is_filter (pr : pluginRegistry) :
    pr.InactivePluginList
      = pr.PluginList.filter
          (fun p => decide (∀ i ∈ pr.InstanceList, i.Plugin.Name ≠ p.Name)) ∧
    ∀ p : Plugin, p ∈ pr.InactivePluginList ↔
      p ∈ pr.PluginList ∧ ∀ i ∈ pr.InstanceList, i.Plugin.Name ≠ p.Name := by
  refine ⟨?_, pr.mem_InactivePluginList⟩
  rw [pluginRegistry.InactivePluginList_eq_filter]
  apply List.filter_congr
  intro p _
  by_cases h : ∀ i ∈ pr.InstanceList, i.Plugin.Name ≠ p.Name
  · have hany : ¬ pr.instances.any (fun i => p.Name == i.Plugin.Name) = true := by
      intro ha
      obtain ⟨i, hi, hn⟩ := List.any_eq_true.mp ha
      have hn2 : p.Name = i.Plugin.Name := by simpa using hn
      exact h i hi hn2.symm
    simp only [decide_eq_true h]
    simpa using hany
  · have hany : pr.instances.any (fun i => p.Name == i.Plugin.Name) = true := by
      by_contra hc
      apply h
      intro i hi hn
      exact hc (List.any_eq_true.mpr ⟨i, hi, by simp [hn]⟩)
    simp only [decide_eq_false h, hany]
    rfl

/-- C12 at a concrete registry: of "deploy" and "status" only "status" has no instance. -/
theorem C12_inactive_is_filter_witness :
    pluginRegistry.InactivePluginList
      ⟨[mkPlugin "deploy" true, mkPlugin "status" true], [instA, instB]⟩
      = [mkPlugin "status" true] := by
  rw [(C12_inactive_is_filter ⟨[mkPlugin "deploy" true, mkPlugin "status" true],
    [instA, instB]⟩).1]
  decide

/-- C13: FindInstances returns the instance list filtered by "Channel equals channel and
plugin Name equals plugin", in list order; the result is the empty list when no
instance matches.  (FindInstances only reads the registry: it is a function of it.) -/
theorem C13_find_instances_is_filter (pr : pluginRegistry) (channel plugin : String) :
    pr.FindInstances channel plugin
      = pr.InstanceList.filter
          (fun i => decide (i.Channel = channel ∧ i.Plugin.Name = plugin)) ∧
    ((∀ i ∈ pr.InstanceList, ¬ (i.Channel = channel ∧ i.Plugin.Name = plugin)) →
      pr.FindInstances channel plugin = []) := by
  have hfilter : pr.FindInstances channel plugin
      = pr.InstanceList.filter
          (fun i => decide (i.Channel = channel ∧ i.Plugin.Name = plugin)) := by
    rw [pluginRegistry.FindInstances_eq_filter]
    apply List.filter_congr
    intro i _
    by_cases h1 : i.Plugin.Name = plugin <;> by_cases h2 : i.Channel = channel <;> simp [h1, h2]
  refine ⟨hfilter, fun hnone => ?_⟩
  rw [hfilter, List.filter_eq_nil_iff]
  intro i hi
  simpa using hnone i hi

/-- C13 at a concrete registry: one instance of "deploy" in "dev", none of "status" in
"dev". -/
theorem C13_find_instances_is_filter_witness :
    pluginRegistry.FindInstances ⟨[], [instA, instB, instC]⟩ "dev" "deploy" = [instB] ∧
    pluginRegistry.FindInstances ⟨[], [instA, instB, instC]⟩ "dev" "status" = [] :=
  ⟨by rw [(C13_find_instances_is_filter ⟨[], [instA, instB, instC]⟩ "dev" "deploy").1]; decide,
   (C13_find_instances_is_filter ⟨[], [instA, instB, instC]⟩ "dev" "status").2 (by decide)⟩

/-- The scan of GetPlugin returns `q` exactly when `q` is the first plugin of the name. -/
theorem find_first_named (name : String) (q : Plugin) :
    ∀ l : List Plugin, l.find? (fun p => p.Name == name) = some q ↔
      ∃ front back, l = front ++ q :: back ∧ q.Name = name ∧ ∀ r ∈ front, r.Name ≠ name := by
  intro l
  induction l with
  | nil => simp
  | cons a rest ih =>
    by_cases ha : a.Name = name
    · have hfind : (a :: rest).find? (fun p => p.Name == name) = some a := by
        simp [List.find?_cons, ha]
      rw [hfind]
      constructor
      · intro h
        have haq : a = q := by simpa using h
        exact ⟨[], rest, by simp [haq], haq ▸ ha, by simp⟩
      · rintro ⟨front, back, hl, _, hfront⟩
        cases front with
        | nil =>
          have haq : a = q := by simpa using (List.cons.inj hl).1
          rw [haq]
        | cons f fs =>
          have haf : a = f := (List.cons.inj hl).1
          exact absurd (haf ▸ ha) (hfront f (List.mem_cons_self _ _))
    · have hfind : (a :: rest).find? (fun p => p.Name == name)
          = rest.find? (fun p => p.Name == name) := by
        simp [List.find?_cons, ha]
      rw [hfind, ih]
      constructor
      · rintro ⟨front, back, hl, hq, hfront⟩
        refine ⟨a :: front, back, by simp [hl], hq, ?_⟩
        intro r hr
        rcases List.mem_cons.mp hr with rfl | hr
        · exact ha
        · exact hfront r hr
      · rintro ⟨front, back, hl, hq, hfront⟩
        cases front with
        | nil =>
          have haq : a = q := (List.cons.inj hl).1
          exact absurd (haq ▸ hq) ha
        | cons f fs =>
          exact ⟨fs, back, (List.cons.inj hl).2, hq,
            fun r hr => hfront r (List.mem_cons_of_mem _ hr)⟩

/-- C14: GetPlugin(name) returns nil exactly when no registered plugin has the name, and
otherwise returns the first registered plugin of that name; after `p.Register()`,
GetPlugin(p.Name) is a plugin with the name of `p`. -/
theorem C14_get_plugin (pr : pluginRegistry) (name : String) :
    (pr.GetPlugin name = none ↔ ∀ q ∈ pr.PluginList, q.Name ≠ name) ∧
    (∀ q : Plugin, pr.GetPlugin name = some q ↔
      ∃ front back, pr.PluginList = front ++ q :: back ∧ q.Name = name ∧
        ∀ r ∈ front, r.Name ≠ name) ∧
    (∀ p : Plugin, (p.Register pr).1 = Outcome.nil ∧
      ∃ q, (p.Register pr).2.GetPlugin p.Name = some q ∧ q.Name = p.Name) := by
  refine ⟨?_, fun q => find_first_named name q pr.plugins, ?_⟩
  · simp [pluginRegistry.GetPlugin, pluginRegistry.PluginList, List.find?_eq_none]
  · intro p
    by_cases h : ∃ q ∈ pr.plugins, q.Name = p.Name
    · rw [Plugin.Register_of_mem p pr h]
      refine ⟨rfl, ?_⟩
      cases hg : pr.GetPlugin p.Name with
      | none =>
        have hnone : ∀ q ∈ pr.plugins, q.Name ≠ p.Name := by
          simpa [pluginRegistry.GetPlugin, List.find?_eq_none] using hg
        obtain ⟨q, hq, hqn⟩ := h
        exact absurd hqn (hnone q hq)
      | some q =>
        obtain ⟨_, _, _, hqn, _⟩ := (find_first_named p.Name q pr.plugins).mp hg
        exact ⟨q, rfl, hqn⟩
    · rw [Plugin.Register_of_not_mem p pr h]
      refine ⟨rfl, p, ?_, rfl⟩
      exact (find_first_named p.Name p (pr.plugins ++ [p])).mpr
        ⟨pr.plugins, [], rfl, rfl, fun r hr hn => h ⟨r, hr, hn⟩⟩

/-- C14 at a concrete registry: the first of two plugins named "deploy" is returned, and
there is none named "uptime". -/
theorem C14_get_plugin_witness :
    pluginRegistry.GetPlugin ⟨[mkPlugin "status" true, mkPlugin "deploy" false,
        mkPlugin "deploy" true], []⟩ "deploy" = some (mkPlugin "deploy" false) ∧
    pluginRegistry.GetPlugin ⟨[mkPlugin "status" true, mkPlugin "deploy" false,
        mkPlugin "deploy" true], []⟩ "uptime" = none :=
  ⟨((C14_get_plugin ⟨[mkPlugin "status" true, mkPlugin "deploy" false,
        mkPlugin "deploy" true], []⟩ "deploy").2.1 (mkPlugin "deploy" false)).mpr
      ⟨[mkPlugin "status" true], [mkPlugin "deploy" true], rfl, rfl, by decide⟩,
   (C14_get_plugin ⟨[mkPlugin "status" true, mkPlugin "deploy" false,
        mkPlugin "deploy" true], []⟩ "uptime").1.mpr (by decide)⟩

/-! ## The order of the two checks of Instance.Register -/

/-- When every entry with the identity string `name` has the plugin name of `ip`, the
one-pass scan gives the result of the two-phase check. -/
theorem Instance.registerScan_eq_twoPhase (ip : Hal.Plugin) (name : GoString)
    (l : List Instance) (hnc : ∀ i ∈ l, i.String = name → i.Plugin.Name = ip.Name) :
    Instance.registerScan ip name l = registerTwoPhase ip name l := by
  induction l with
  | nil => simp [Instance.registerScan, registerTwoPhase]
  | cons k rest ih =>
    have ih2 := ih (fun i hi => hnc i (List.mem_cons_of_mem _ hi))
    have hk := hnc k (List.mem_cons_self _ _)
    cases hm : ip.Multi with
    | true =>
      by_cases h2 : k.String = name
      · simp [Instance.registerScan, registerTwoPhase, hm, h2]
      · rw [Instance.registerScan, ih2]
        simp [registerTwoPhase, hm, h2]
    | false =>
      by_cases h1 : ip.Name = k.Plugin.Name
      · simp [Instance.registerScan, registerTwoPhase, hm, h1]
      · have h2 : k.String ≠ name := fun h => h1 (hk h).symm
        rw [Instance.registerScan, ih2]
        simp [registerTwoPhase, hm, h1, h2]

/-- C19 as stated fails: "a/b" (Multi set) is instantiated in "c" and "a" (without
Multi) in "x"; registering a second instance of "a", for channel "b/c", meets the entry
"a/b/c" of the other plugin first and ends in the "already instantiated" error, while
the two-phase check gives the fatal condition. -/
theorem C19_counterexample_error_before_fatal :
    runOutcomes compilesAll
      [Call.instanceRegister ((mkPlugin "a/b" true).Instance 1 "c"),
       Call.instanceRegister ((mkPlugin "a" false).Instance 2 "x"),
       Call.instanceRegister ((mkPlugin "a" false).Instance 3 "b/c")] PluginRegistry
      = [Outcome.nil, Outcome.nil, Outcome.error "'a/b/c' is already instantiated"] ∧
    registerTwoPhase (mkPlugin "a" false) ((mkPlugin "a" false).Instance 3 "b/c").String
      [((mkPlugin "a/b" true).Instance 1 "c").withCompiled,
       ((mkPlugin "a" false).Instance 2 "x").withCompiled]
      = some (Outcome.fatal
          "BUG: plugin 'a' being registered multiple times when only one instance is allowed.") ∧
    (runCalls compilesAll
      [Call.instanceRegister ((mkPlugin "a/b" true).Instance 1 "c"),
       Call.instanceRegister ((mkPlugin "a" false).Instance 2 "x")] PluginRegistry).InstanceList
      = [((mkPlugin "a/b" true).Instance 1 "c").withCompiled,
         ((mkPlugin "a" false).Instance 2 "x").withCompiled] := by
  refine ⟨by decide, by decide, by decide⟩

/-- C19, amended: for an instance of a plugin with Multi == false, when a registered
instance has the same plugin name and no registered instance of another plugin name
has the identity string of the instance, Instance.Register ends in the fatal condition
and not in the "already instantiated" error, and the one-pass loop gives the result of
the two-phase check (scan for the name, then check the identity string). -/
theorem C19_single_check_first (compiles : Compiles) (pr : pluginRegistry) (inst : Instance)
    (hm : inst.Plugin.Multi = false)
    (h : ∃ i ∈ pr.instances, i.Plugin.Name = inst.Plugin.Name)
    (hnc : ∀ i ∈ pr.instances, i.String = inst.String → i.Plugin.Name = inst.Plugin.Name) :
    inst.Register compiles pr
      = (Outcome.fatal ("BUG: plugin '" ++ inst.Plugin.Name ++
          "' being registered multiple times when only one instance is allowed."), pr, inst) ∧
    Instance.registerScan inst.Plugin inst.String pr.instances
      = registerTwoPhase inst.Plugin inst.String pr.instances := by
  have heq := Instance.registerScan_eq_twoPhase inst.Plugin inst.String pr.instances hnc
  have hany : pr.instances.any (fun i => inst.Plugin.Name == i.Plugin.Name) = true := by
    obtain ⟨i, hi, hn⟩ := h
    exact List.any_eq_true.mpr ⟨i, hi, by simp [hn]⟩
  refine ⟨?_, heq⟩
  simp only [Instance.Register, heq, registerTwoPhase, hm, hany]
  rfl

/-- C19, amended, at a concrete registry: a second instance of the single-instance plugin
"uptime" ends in the fatal condition. -/
theorem C19_single_check_first_witness :
    (((mkPlugin "uptime" false).Instance 2 "dev").Register compilesAll
        ⟨[], [instA, (mkPlugin "uptime" false).Instance 1 "ops"]⟩).1
      = Outcome.fatal
          "BUG: plugin 'uptime' being registered multiple times when only one instance is allowed." :=
  congrArg Prod.fst
    (C19_single_check_first compilesAll ⟨[], [instA, (mkPlugin "uptime" false).Instance 1 "ops"]⟩
      ((mkPlugin "uptime" false).Instance 2 "dev") rfl
      ⟨(mkPlugin "uptime" false).Instance 1 "ops", by simp, rfl⟩ (by decide)).1

/-! ## Totality of Instance.Unregister -/

/-- Unregister returns nil on every non-empty instance list. -/
theorem Instance.Unregister_nonempty (x : Instance) (pr : pluginRegistry)
    (h : pr.instances ≠ []) : (x.Unregister pr).1 = Outcome.nil := by
  by_cases hx : ∃ i ∈ pr.instances, i.addr = x.addr
  · obtain ⟨front, y, back, hl, _, _, hidx⟩ := Instance.unregisterIdx_of_mem x pr.instances 0 hx
    have hlt : Instance.unregisterIdx x pr.instances 0 + 1 ≤ pr.instances.length := by
      rw [hidx, hl]; simp
    simp [Instance.Unregister, hlt]
  · have hidx := Instance.unregisterIdx_of_not_mem x pr.instances 0
      (fun i hi hn => hx ⟨i, hi, hn⟩)
    have hlen : 0 < pr.instances.length := List.length_pos.mpr h
    have hlt : Instance.unregisterIdx x pr.instances 0 + 1 ≤ pr.instances.length := by
      rw [hidx]; omega
    simp [Instance.Unregister, hlt]

/-- C20, the code at a failing input: on the empty instance list the loop leaves `idx`
at 0 and the slice expression `pr.instances[idx+1:]` is `[1:]` of a list of length 0;
the call panics and does not return nil. -/
theorem C20_unregister_empty_panics :
    PluginRegistry.instances = [] ∧
    instA.Unregister PluginRegistry = (Outcome.panic, PluginRegistry) ∧
    (instA.Unregister PluginRegistry).1 ≠ Outcome.nil := by
  refine ⟨rfl, by decide, by decide⟩

/-! ## ActivePluginList: first-seen order -/

/-- One round of the outer loop of ActivePluginList keeps `firstSeenInv`. -/
theorem firstSeenInv_step (pre : List Instance) (out : List Plugin) (i : Instance)
    (h : firstSeenInv pre out) : firstSeenInv (pre ++ [i]) (activeStep out i) := by
  obtain ⟨hnd, hcov, hfirst, hord⟩ := h
  have hfind : ∀ p ∈ out, ∃ j, (pre ++ [i]).find? (fun k => k.Plugin.Name == p.Name) = some j ∧
      j.Plugin = p := by
    intro p hp
    obtain ⟨j, hj, hjp⟩ := hfirst p hp
    exact ⟨j, by simp [List.find?_append, hj], hjp⟩
  have hidx : ∀ p ∈ out, (pre ++ [i]).findIdx (fun k => k.Plugin.Name == p.Name)
      = pre.findIdx (fun k => k.Plugin.Name == p.Name) ∧
      pre.findIdx (fun k => k.Plugin.Name == p.Name) < pre.length := by
    intro p hp
    obtain ⟨j, hj, _⟩ := hfirst p hp
    have hlt : pre.findIdx (fun k => k.Plugin.Name == p.Name) < pre.length :=
      List.findIdx_lt_length_of_exists ⟨j, List.mem_of_find?_eq_some hj,
        @List.find?_some _ (fun k => k.Plugin.Name == p.Name) j pre hj⟩
    exact ⟨by rw [List.findIdx_append, if_pos hlt], hlt⟩
  have hord2 : out.Pairwise (fun p q =>
      (pre ++ [i]).findIdx (fun k => k.Plugin.Name == p.Name)
        < (pre ++ [i]).findIdx (fun k => k.Plugin.Name == q.Name)) := by
    refine List.Pairwise.imp_of_mem ?_ hord
    intro p q hp hq hpq
    rw [(hidx p hp).1, (hidx q hq).1]
    exact hpq
  rw [activeStep_eq]
  by_cases hseen : out.any (fun p => p.Name == i.Plugin.Name) = true
  · rw [if_pos hseen]
    obtain ⟨q, hq, hqn⟩ := List.any_eq_true.mp hseen
    have hqn2 : q.Name = i.Plugin.Name := by simpa using hqn
    refine ⟨hnd, ?_, hfind, hord2⟩
    intro k hk
    rcases List.mem_append.mp hk with hk | hk
    · exact hcov k hk
    · have hki : k = i := by simpa using hk
      exact ⟨q, hq, by rw [hki, hqn2]⟩
  · rw [if_neg hseen]
    have hfresh : ∀ p ∈ out, p.Name ≠ i.Plugin.Name := by
      intro p hp hn
      exact hseen (List.any_eq_true.mpr ⟨p, hp, by simp [hn]⟩)
    have hpre : ∀ k ∈ pre, (k.Plugin.Name == i.Plugin.Name) = false := by
      intro k hk
      obtain ⟨p, hp, hpn⟩ := hcov k hk
      have hne : k.Plugin.Name ≠ i.Plugin.Name := fun hkn => hfresh p hp (hpn.trans hkn)
      simpa using hne
    have hlen : (pre ++ [i]).findIdx (fun k => k.Plugin.Name == i.Plugin.Name) = pre.length := by
      have h0 : pre.findIdx (fun k => k.Plugin.Name == i.Plugin.Name) = pre.length :=
        List.findIdx_eq_length_of_false hpre
      rw [List.findIdx_append, h0, if_neg (Nat.lt_irrefl _)]
      simp [List.findIdx_cons]
    refine ⟨?_, ?_, ?_, ?_⟩
    · rw [List.map_append, List.nodup_append]
      refine ⟨hnd, by simp, ?_⟩
      intro n hn hn2
      obtain ⟨p, hp, hpn⟩ := List.mem_map.mp hn
      have hni : n = i.Plugin.Name := by simpa using hn2
      exact hfresh p hp (hpn.trans hni)
    · intro k hk
      rcases List.mem_append.mp hk with hk | hk
      · obtain ⟨p, hp, hpn⟩ := hcov k hk
        exact ⟨p, List.mem_append_left _ hp, hpn⟩
      · have hki : k = i := by simpa using hk
        exact ⟨i.Plugin, by simp, by rw [hki]⟩
    · intro p hp
      rcases List.mem_append.mp hp with hp | hp
      · exact hfind p hp
      · have hpi : p = i.Plugin := by simpa using hp
        refine ⟨i, ?_, hpi.symm⟩
        have hnone : pre.find? (fun k => k.Plugin.Name == i.Plugin.Name) = none := by
          rw [List.find?_eq_none]
          intro k hk
          simp [hpre k hk]
        rw [hpi, List.find?_append, hnone]
        simp
    · refine List.pairwise_append.mpr ⟨hord2, List.pairwise_singleton _ _, ?_⟩
      intro p hp q hq
      have hqi : q = i.Plugin := by simpa using hq
      rw [hqi, hlen, (hidx p hp).1]
      exact (hidx p hp).2

/-- The outer loop of ActivePluginList keeps `firstSeenInv` over any further instances. -/
theorem firstSeenInv_loop (l : List Instance) :
    ∀ (pre : List Instance) (out : List Plugin), firstSeenInv pre out →
      firstSeenInv (pre ++ l) (l.foldl activeStep out) := by
  induction l with
  | nil => intro pre out h; simpa using h
  | cons i rest ih =>
    intro pre out h
    have h2 := ih (pre ++ [i]) (activeStep out i) (firstSeenInv_step pre out i h)
    simpa [List.append_assoc] using h2

/-- C11: ActivePluginList holds no plugin name twice, holds a plugin of a name exactly
when a registered instance has a plugin of that name, every entry is the plugin of the
first instance of its name in the instance list, and the entries are ordered by the
positions of those first instances. -/
theorem C11_active_first_seen (pr : pluginRegistry) :
    (pr.ActivePluginList.map (fun p => p.Name)).Nodup ∧
    (∀ n : String, (∃ p ∈ pr.ActivePluginList, p.Name = n) ↔
      ∃ i ∈ pr.InstanceList, i.Plugin.Name = n) ∧
    (∀ p ∈ pr.ActivePluginList, ∃ i,
      pr.InstanceList.find? (fun i => i.Plugin.Name == p.Name) = some i ∧ i.Plugin = p) ∧
    pr.ActivePluginList.Pairwise (fun p q =>
      pr.InstanceList.findIdx (fun i => i.Plugin.Name == p.Name)
        < pr.InstanceList.findIdx (fun i => i.Plugin.Name == q.Name)) := by
  have hinit : firstSeenInv [] [] := by
    refine ⟨by simp, by simp, by simp, List.Pairwise.nil⟩
  have h := firstSeenInv_loop pr.instances [] [] hinit
  rw [List.nil_append, ← pluginRegistry.ActivePluginList_eq] at h
  exact ⟨h.1, pr.ActivePluginList_names, h.2.2.1, h.2.2.2⟩

/-- C11 at a concrete registry: instances of "deploy", "status", "deploy" give the
entries "deploy", "status", and "deploy" is the plugin of the first instance. -/
theorem C11_active_first_seen_witness :
    pluginRegistry.ActivePluginList ⟨[], [instA, instC, instB]⟩
      = [mkPlugin "deploy" true, mkPlugin "status" true] ∧
    ∃ i, (pluginRegistry.InstanceList ⟨[], [instA, instC, instB]⟩).find?
        (fun i => i.Plugin.Name == (mkPlugin "deploy" true).Name) = some i ∧
      i.Plugin = mkPlugin "deploy" true :=
  ⟨by decide,
   (C11_active_first_seen ⟨[], [instA, instC, instB]⟩).2.2.1 (mkPlugin "deploy" true)
     (by decide)⟩

/-! ## FillPref -/

/-- C18 as stated fails: for an event whose Broker is nil and a pref whose Broker field
is empty, FillPref calls `e.Broker.Name()` on the nil interface and panics; for an
event whose instance is nil, or whose instance has a nil embedded `*Plugin`, and a
pref whose Plugin field is empty, it reads `e.instance.Plugin.Name` through the nil
pointer and panics.  In each case it returns no pref. -/
theorem C18_counterexample_nil_broker :
    (mkEvt "hello" none (some instA.ref)).FillPref
      { User := "", Room := "", Broker := "", Plugin := "", Key := "tz", Default := "UTC" }
      = none ∧
    (mkEvt "hello" (some ⟨"slack"⟩) none).FillPref
      { User := "", Room := "", Broker := "", Plugin := "", Key := "tz", Default := "UTC" }
      = none ∧
    (mkEvt "hello" (some ⟨"slack"⟩) (some { instA.ref with Plugin := none })).FillPref
      { User := "", Room := "", Broker := "", Plugin := "", Key := "tz", Default := "UTC" }
      = none := by
  decide

/-- The expression `e.instance.Plugin.Name` has a value exactly when the event's instance
is not nil and the embedded `*Plugin` of that instance is not nil. -/
theorem Evt.instancePluginName_eq_some (e : Evt) (n : String) :
    e.instancePluginName = some n ↔
      ∃ i pl, e.instance_ = some i ∧ i.Plugin = some pl ∧ pl.Name = n := by
  unfold Evt.instancePluginName
  cases hi : e.instance_ with
  | none => simp
  | some i =>
    cases hp : i.Plugin with
    | none => simp [hp]
    | some pl => simp [hp]

/-- The expression `e.instance.Plugin.Name` panics exactly when the event's instance is
nil or the embedded `*Plugin` of that instance is nil. -/
theorem Evt.instancePluginName_ne_none (e : Evt) :
    e.instancePluginName ≠ none ↔ ∃ i pl, e.instance_ = some i ∧ i.Plugin = some pl := by
  unfold Evt.instancePluginName
  cases hi : e.instance_ with
  | none => simp
  | some i =>
    cases hp : i.Plugin with
    | none => simp [hp]
    | some pl => simp [hp]

/-- The call `e.Broker.Name()` panics exactly when the event's Broker is nil. -/
theorem Evt.BrokerName_ne_none (e : Evt) : e.BrokerName ≠ none ↔ e.Broker ≠ none := by
  unfold Evt.BrokerName
  cases e.Broker <;> simp

/-- FillPref in terms of the two expressions that can panic. -/
theorem Evt.FillPref_spec (e : Evt) (p : Pref) :
    (((p.Broker = "" → e.BrokerName ≠ none) ∧
      (p.Plugin = "" → e.instancePluginName ≠ none)) →
      ∃ q, e.FillPref p = some q ∧
        q.User = (if p.User = "" then e.User else p.User) ∧
        q.Room = (if p.Room = "" then e.RoomId else p.Room) ∧
        (p.Broker ≠ "" → q.Broker = p.Broker) ∧
        (p.Broker = "" → e.BrokerName = some q.Broker) ∧
        (p.Plugin ≠ "" → q.Plugin = p.Plugin) ∧
        (p.Plugin = "" → e.instancePluginName = some q.Plugin) ∧
        q.Key = p.Key ∧ q.Default = p.Default ∧
        e.FillPref q = some q) ∧
    (¬ ((p.Broker = "" → e.BrokerName ≠ none) ∧
        (p.Plugin = "" → e.instancePluginName ≠ none)) →
      e.FillPref p = none) := by
  unfold Evt.FillPref
  generalize e.BrokerName = ob
  generalize e.instancePluginName = oname
  rcases p with ⟨u, r, b, pl, k, d⟩
  by_cases hu : u = "" <;> by_cases hr : r = "" <;> by_cases hb : b = "" <;>
    by_cases hp : pl = "" <;> cases ob <;> cases oname <;>
    simp [hu, hr, hb, hp]

/-- C18, amended: when the event's Broker is non-nil in case the pref's Broker field is
empty, and the event's instance and the embedded plugin pointer of that instance are
non-nil in case the pref's Plugin field is empty, FillPref returns the pref with each
of User, Room, Broker, Plugin replaced by the event's User, RoomId, broker name,
instance plugin name exactly when that field is empty, with the non-empty ones and
the other fields unchanged, and FillPref of the result returns the result again; in
every other case (nil Broker with an empty Broker field; nil instance, or instance
with nil plugin pointer, with an empty Plugin field) the call panics. -/
theorem C18_fill_pref (e : Evt) (p : Pref) :
    (((p.Broker = "" → e.Broker ≠ none) ∧
      (p.Plugin = "" → ∃ i pl, e.instance_ = some i ∧ i.Plugin = some pl)) →
      ∃ q, e.FillPref p = some q ∧
        q.User = (if p.User = "" then e.User else p.User) ∧
        q.Room = (if p.Room = "" then e.RoomId else p.Room) ∧
        (p.Broker ≠ "" → q.Broker = p.Broker) ∧
        (p.Broker = "" → e.BrokerName = some q.Broker) ∧
        (p.Plugin ≠ "" → q.Plugin = p.Plugin) ∧
        (p.Plugin = "" →
          ∃ i pl, e.instance_ = some i ∧ i.Plugin = some pl ∧ pl.Name = q.Plugin) ∧
        q.Key = p.Key ∧ q.Default = p.Default ∧
        e.FillPref q = some q) ∧
    (¬ ((p.Broker = "" → e.Broker ≠ none) ∧
        (p.Plugin = "" → ∃ i pl, e.instance_ = some i ∧ i.Plugin = some pl)) →
      e.FillPref p = none) := by
  have hguard : ((p.Broker = "" → e.Broker ≠ none) ∧
      (p.Plugin = "" → ∃ i pl, e.instance_ = some i ∧ i.Plugin = some pl)) ↔
      ((p.Broker = "" → e.BrokerName ≠ none) ∧
        (p.Plugin = "" → e.instancePluginName ≠ none)) := by
    rw [Evt.BrokerName_ne_none, Evt.instancePluginName_ne_none]
  obtain ⟨hpos, hneg⟩ := Evt.FillPref_spec e p
  refine ⟨fun hg => ?_, fun hg => hneg (fun h => hg (hguard.mpr h))⟩
  obtain ⟨q, h1, h2, h3, h4, h5, h6, h7, h8, h9, h10⟩ := hpos (hguard.mp hg)
  exact ⟨q, h1, h2, h3, h4, h5, h6,
    fun hp => (Evt.instancePluginName_eq_some e q.Plugin).mp (h7 hp), h8, h9, h10⟩

/-- C18, amended, at a concrete event and a pref with only Room set. -/
theorem C18_fill_pref_witness :
    ∃ q, (mkEvt "hello" (some ⟨"slack"⟩) (some instA.ref)).FillPref
        { User := "", Room := "lobby", Broker := "", Plugin := "", Key := "tz", Default := "UTC" }
        = some q ∧
      q.User = "dave" ∧ q.Room = "lobby" ∧ q.Broker = "slack" ∧ q.Plugin = "deploy" ∧
      q.Key = "tz" ∧ q.Default = "UTC" ∧
      (mkEvt "hello" (some ⟨"slack"⟩) (some instA.ref)).FillPref q = some q := by
  obtain ⟨q, h1, h2, h3, _, h5, _, h7, h8, h9, h10⟩ :=
    (C18_fill_pref (mkEvt "hello" (some ⟨"slack"⟩) (some instA.ref))
      { User := "", Room := "lobby", Broker := "", Plugin := "", Key := "tz",
        Default := "UTC" }).1
      ⟨fun _ => by decide, fun _ => ⟨instA.ref, mkPlugin "deploy" true, rfl, rfl⟩⟩
  have hb : q.Broker = "slack" := by
    have h := h5 rfl
    simpa [Evt.BrokerName, mkEvt] using h.symm
  have hpl : q.Plugin = "deploy" := by
    obtain ⟨i, pl, hi, hpl, hn⟩ := h7 rfl
    have hi2 : i = instA.ref := by simpa [mkEvt] using hi.symm
    rw [hi2] at hpl
    have hpl2 : pl = mkPlugin "deploy" true := by
      simpa [Instance.ref, instA, Plugin.Instance] using hpl.symm
    rw [← hn, hpl2]; rfl
  exact ⟨q, h1, h2, h3, hb, hpl, h8, h9, h10⟩

/-! ## SaveSettingsToPrefs -/

/-- C17 as stated fails: with a store on which every write fails, SaveSettingsToPrefs of
an instance with one setting gives its caller the same (empty) result as with a store
on which every write succeeds. -/
theorem C17_counterexample_failure_not_reported :
    (failingSet (mkPref "tz") []).1 = some "store unavailable" ∧
    (workingSet (mkPref "tz") []).1 = none ∧
    (Instance.SaveSettingsToPrefs failingSet { instA with Settings := [mkPref "tz"] } []).1
      = (Instance.SaveSettingsToPrefs workingSet { instA with Settings := [mkPref "tz"] } []).1 := by
  refine ⟨by decide, by decide, rfl⟩

/-- C17, amended: SaveSettingsToPrefs does not report a store failure.  Its result is
the same for every store and every behaviour of the writes, and a write, failed or
not, is followed by the writes of the remaining settings: with the settings
`pre ++ b :: post` the store is the one the writes of `post` leave after the write of
`b` after the writes of `pre`. -/
theorem C17_save_discards_failure {σ : Type} (set : Pref → σ → Option GoString × σ)
    (inst : Instance) (store : σ) :
    (∀ (set2 : Pref → σ → Option GoString × σ) (store2 : σ),
      (inst.SaveSettingsToPrefs set store).1 = (inst.SaveSettingsToPrefs set2 store2).1) ∧
    (∀ (pre post : List Pref) (b : Pref), inst.Settings = pre ++ b :: post →
      (inst.SaveSettingsToPrefs set store).2
        = (Instance.SaveSettingsToPrefs set { inst with Settings := post }
            (set b (Instance.SaveSettingsToPrefs set { inst with Settings := pre }
              store).2).2).2) := by
  refine ⟨fun _ _ => rfl, ?_⟩
  intro pre post b h
  simp [Instance.SaveSettingsToPrefs, h, List.foldl_append]

/-- C17, amended, at a concrete store: the write of "locked" fails, the writes of "tz"
before it and of "lang" after it are made, and the result is the empty one. -/
theorem C17_save_discards_failure_witness :
    (pickySet (mkPref "locked") [mkPref "tz"]).1 = some "key is locked" ∧
    (Instance.SaveSettingsToPrefs pickySet
      { instA with Settings := [mkPref "tz", mkPref "locked", mkPref "lang"] } []).2
      = [mkPref "tz", mkPref "lang"] := by
  refine ⟨by decide, ?_⟩
  rw [(C17_save_discards_failure pickySet
    { instA with Settings := [mkPref "tz", mkPref "locked", mkPref "lang"] } []).2
    [mkPref "tz"] [mkPref "lang"] (mkPref "locked") rfl]
  decide

/-! ## BodyAsArgv -/

theorem reSpace_isSpace (c : Char) (h : reSpace c = true) : unicodeIsSpace c = true := by
  simp only [reSpace, unicodeIsSpace, Bool.or_eq_true, Bool.and_eq_true, beq_iff_eq,
    decide_eq_true_eq] at *
  omega

theorem not_reSpace_of_not_isSpace (c : Char) (h : unicodeIsSpace c = false) :
    reSpace c = false := by
  cases hr : reSpace c with
  | false => rfl
  | true => rw [reSpace_isSpace c hr] at h; cases h

theorem dropWhile_spaces (n : Nat) (x : List Char) :
    (List.replicate n ' ' ++ x).dropWhile unicodeIsSpace = x.dropWhile unicodeIsSpace := by
  induction n with
  | zero => simp
  | succ k ih =>
    have hs : unicodeIsSpace ' ' = true := by decide
    simp [List.replicate_succ, List.dropWhile_cons, hs, ih]

theorem dropWhile_clean (x : List Char) (h : ∀ c ∈ x.head?, unicodeIsSpace c = false) :
    x.dropWhile unicodeIsSpace = x := by
  cases x with
  | nil => rfl
  | cons c rest =>
    have hc : unicodeIsSpace c = false := h c (by simp)
    simp [List.dropWhile_cons, hc]

theorem TrimSpace_padded (lead trail : Nat) (core : List Char)
    (hhead : ∀ c ∈ core.head?, unicodeIsSpace c = false)
    (hlast : ∀ c ∈ core.getLast?, unicodeIsSpace c = false) :
    strings.TrimSpace (List.replicate lead ' ' ++ core ++ List.replicate trail ' ') = core := by
  unfold strings.TrimSpace
  rw [List.append_assoc, dropWhile_spaces]
  cases core with
  | nil =>
    have h0 := dropWhile_spaces trail []
    simp only [List.append_nil] at h0
    simp [h0]
  | cons c rest =>
    have hc : unicodeIsSpace c = false := hhead c (by simp)
    rw [List.cons_append, List.dropWhile_cons, hc]
    simp only [Bool.false_eq_true, if_false]
    rw [← List.cons_append, List.reverse_append, List.reverse_replicate, dropWhile_spaces,
      dropWhile_clean (c :: rest).reverse (by rw [List.head?_reverse]; exact hlast),
      List.reverse_reverse]

theorem untilQuote_closed (q : Char) (tail : List Char) :
    ∀ a : List Char, q ∉ a → untilQuote q (a ++ q :: tail) = some a := by
  intro a
  induction a with
  | nil => intro _; simp [untilQuote]
  | cons c cs ih =>
    intro h
    have hc : c ≠ q := fun hcq => h (by simp [hcq])
    have hcs : q ∉ cs := fun hq => h (List.mem_cons_of_mem _ hq)
    simp [untilQuote, hc, ih hcs]

theorem takeWhile_run (tail : List Char) (htail : ∀ c ∈ tail.head?, reSpace c = true) :
    ∀ a : List Char, (∀ c ∈ a, reSpace c = false) →
      (a ++ tail).takeWhile (fun c => !reSpace c) = a := by
  intro a
  induction a with
  | nil =>
    intro _
    cases tail with
    | nil => rfl
    | cons t ts =>
      have ht : reSpace t = true := htail t (by simp)
      simp [List.takeWhile_cons, ht]
  | cons c cs ih =>
    intro h
    have hc : reSpace c = false := h c (List.mem_cons_self _ _)
    simp [List.takeWhile_cons, hc, ih (fun d hd => h d (List.mem_cons_of_mem _ hd))]

theorem findAllFrom_skip (rest : List Char) :
    ∀ pre : List Char, findAllFrom (pre ++ rest) pre.length = findAllFrom rest 0 := by
  intro pre
  induction pre with
  | nil => rfl
  | cons c cs ih => simpa [findAllFrom] using ih

theorem findAllFrom_token (w tail : List Char) (hw : w ≠ [])
    (hm : argvMatchAt (w ++ tail) = some w) :
    findAllFrom (w ++ tail) 0 = w :: findAllFrom tail 0 := by
  cases w with
  | nil => exact absurd rfl hw
  | cons c cs =>
    rw [List.cons_append] at hm ⊢
    rw [findAllFrom, hm]
    simp only [List.length_cons, Nat.add_sub_cancel]
    rw [findAllFrom_skip]

theorem argvMatchAt_space (t : List Char) : argvMatchAt (' ' :: t) = none := by
  have h1 : ¬ (' ' = singleQuote) := by decide
  have h2 : ¬ (' ' = doubleQuote) := by decide
  have h3 : reSpace ' ' = true := by decide
  simp [argvMatchAt, matchQuoted, matchNonSpace, h1, h2, h3, List.takeWhile_cons]

theorem HasSuffix_concat (l : List Char) (q : Char) : strings.HasSuffix (l ++ [q]) [q] = true := by
  simp [strings.HasSuffix]

theorem TrimSuffix_concat (l : List Char) (q : Char) : strings.TrimSuffix (l ++ [q]) [q] = l := by
  simp [strings.TrimSuffix, HasSuffix_concat]

theorem HasPrefix_cons (c q : Char) (l : List Char) :
    strings.HasPrefix (c :: l) [q] = decide (q = c) := by
  by_cases h : q = c <;> simp [strings.HasPrefix, List.isPrefixOf, h]

theorem TrimPrefix_cons (q : Char) (l : List Char) : strings.TrimPrefix (q :: l) [q] = l := by
  simp [strings.TrimPrefix, HasPrefix_cons]

theorem stripQuotes_written (q : Quoting) (a : List Char) (hadm : q.admits a) :
    stripQuotes (q.write a) = a := by
  cases q with
  | bare =>
    obtain ⟨hne, hall⟩ := hadm
    cases a with
    | nil => exact absurd rfl hne
    | cons c cs =>
      obtain ⟨_, h1, h2⟩ := hall c (List.mem_cons_self _ _)
      simp [stripQuotes, Quoting.write, HasPrefix_cons, Ne.symm h1, Ne.symm h2]
  | double =>
    have hds : ¬ (singleQuote = doubleQuote) := by decide
    have hsuf : strings.HasSuffix (doubleQuote :: (a ++ [doubleQuote])) [doubleQuote] = true :=
      HasSuffix_concat (doubleQuote :: a) doubleQuote
    simp [stripQuotes, Quoting.write, HasPrefix_cons, hds, hsuf, TrimPrefix_cons,
      TrimSuffix_concat]
  | single =>
    have hsuf : strings.HasSuffix (singleQuote :: (a ++ [singleQuote])) [singleQuote] = true :=
      HasSuffix_concat (singleQuote :: a) singleQuote
    simp [stripQuotes, Quoting.write, HasPrefix_cons, hsuf, TrimPrefix_cons, TrimSuffix_concat]

theorem argvMatchAt_written (q : Quoting) (a tail : List Char) (hadm : q.admits a)
    (htail : ∀ c ∈ tail.head?, reSpace c = true) :
    argvMatchAt (q.write a ++ tail) = some (q.write a) := by
  cases q with
  | bare =>
    obtain ⟨hne, hall⟩ := hadm
    have hrun := takeWhile_run tail htail a
      (fun c hc => not_reSpace_of_not_isSpace c (hall c hc).1)
    cases a with
    | nil => exact absurd rfl hne
    | cons c cs =>
      obtain ⟨_, h1, h2⟩ := hall c (List.mem_cons_self _ _)
      rw [List.cons_append] at hrun
      simp only [Quoting.write, List.cons_append, argvMatchAt, matchQuoted, h1, h2, if_false,
        matchNonSpace, hrun]
  | double =>
    have hds : ¬ (doubleQuote = singleQuote) := by decide
    have hu := untilQuote_closed doubleQuote tail a hadm
    simp [Quoting.write, argvMatchAt, matchQuoted, hds, hu]
  | single =>
    have hu := untilQuote_closed singleQuote tail a hadm
    simp [Quoting.write, argvMatchAt, matchQuoted, hu]

theorem written_clean (q : Quoting) (a : List Char) (hadm : q.admits a) :
    q.write a ≠ [] ∧ (∀ c ∈ (q.write a).head?, unicodeIsSpace c = false) ∧
      (∀ c ∈ (q.write a).getLast?, unicodeIsSpace c = false) := by
  cases q with
  | bare =>
    obtain ⟨hne, hall⟩ := hadm
    exact ⟨hne, fun c hc => (hall c (List.mem_of_mem_head? hc)).1,
      fun c hc => (hall c (List.mem_of_mem_getLast? hc)).1⟩
  | double =>
    have hq : unicodeIsSpace doubleQuote = false := by decide
    refine ⟨by simp [Quoting.write], ?_, ?_⟩
    · intro c hc
      have : c = doubleQuote := by simpa [Quoting.write, eq_comm] using hc
      rw [this]; exact hq
    · intro c hc
      have hl : (Quoting.double.write a).getLast? = some doubleQuote :=
        List.getLast?_concat (doubleQuote :: a)
      rw [hl] at hc
      have : c = doubleQuote := by simpa [eq_comm] using hc
      rw [this]; exact hq
  | single =>
    have hq : unicodeIsSpace singleQuote = false := by decide
    refine ⟨by simp [Quoting.write], ?_, ?_⟩
    · intro c hc
      have : c = singleQuote := by simpa [Quoting.write, eq_comm] using hc
      rw [this]; exact hq
    · intro c hc
      have hl : (Quoting.single.write a).getLast? = some singleQuote :=
        List.getLast?_concat (singleQuote :: a)
      rw [hl] at hc
      have : c = singleQuote := by simpa [eq_comm] using hc
      rw [this]; exact hq

theorem joinSpace_ne_nil (w : List Char) (ws : List (List Char)) (hw : w ≠ []) :
    joinSpace (w :: ws) ≠ [] := by
  cases ws with
  | nil => simpa [joinSpace] using hw
  | cons v vs => simp [joinSpace, hw]

theorem joinSpace_clean :
    ∀ ws : List (List Char),
      (∀ w ∈ ws, w ≠ [] ∧ (∀ c ∈ w.head?, unicodeIsSpace c = false) ∧
        (∀ c ∈ w.getLast?, unicodeIsSpace c = false)) →
      (∀ c ∈ (joinSpace ws).head?, unicodeIsSpace c = false) ∧
        (∀ c ∈ (joinSpace ws).getLast?, unicodeIsSpace c = false) := by
  intro ws
  induction ws with
  | nil => intro _; simp [joinSpace]
  | cons w rest ih =>
    intro h
    obtain ⟨hw, hwh, hwl⟩ := h w (List.mem_cons_self _ _)
    cases rest with
    | nil => exact ⟨by simpa [joinSpace] using hwh, by simpa [joinSpace] using hwl⟩
    | cons v vs =>
      have ih2 := ih (fun u hu => h u (List.mem_cons_of_mem _ hu))
      have hv : v ≠ [] := (h v (by simp)).1
      have hJ : joinSpace (v :: vs) ≠ [] := joinSpace_ne_nil v vs hv
      refine ⟨?_, ?_⟩
      · intro c hc
        rw [joinSpace, List.head?_append_of_ne_nil _ hw] at hc
        exact hwh c hc
      · intro c hc
        have hl : (w ++ ' ' :: joinSpace (v :: vs)).getLast? = (joinSpace (v :: vs)).getLast? := by
          rw [List.getLast?_append_of_ne_nil _ (by simp)]
          obtain ⟨j, js, hj⟩ := List.exists_cons_of_ne_nil hJ
          rw [hj, List.getLast?_cons_cons]
        rw [joinSpace, hl] at hc
        exact ih2.2 c hc

theorem findAllFrom_words :
    ∀ ws : List (List Char),
      (∀ w ∈ ws, w ≠ [] ∧ ∀ tail : List Char, (∀ c ∈ tail.head?, reSpace c = true) →
        argvMatchAt (w ++ tail) = some w) →
      findAllFrom (joinSpace ws) 0 = ws := by
  intro ws
  induction ws with
  | nil => intro _; rfl
  | cons w rest ih =>
    intro h
    obtain ⟨hw, hmatch⟩ := h w (List.mem_cons_self _ _)
    cases rest with
    | nil =>
      have h1 := findAllFrom_token w [] hw (hmatch [] (by simp))
      simpa [joinSpace, findAllFrom] using h1
    | cons v vs =>
      have ih2 := ih (fun u hu => h u (List.mem_cons_of_mem _ hu))
      have hsp : reSpace ' ' = true := by decide
      have h1 := findAllFrom_token w (' ' :: joinSpace (v :: vs)) hw
        (hmatch _ (by simpa using hsp))
      rw [joinSpace, h1, findAllFrom, argvMatchAt_space, ih2]

theorem bodyAsArgv_written (lead trail : Nat) (args : List (Quoting × List Char))
    (hadm : ∀ qa ∈ args, qa.1.admits qa.2) :
    bodyAsArgv (writeBody lead trail args) = args.map (fun qa => qa.2) := by
  have hclean := joinSpace_clean (args.map (fun qa => qa.1.write qa.2)) (by
    intro w hw
    obtain ⟨qa, hqa, rfl⟩ := List.mem_map.mp hw
    exact written_clean qa.1 qa.2 (hadm qa hqa))
  have hwords := findAllFrom_words (args.map (fun qa => qa.1.write qa.2)) (by
    intro w hw
    obtain ⟨qa, hqa, rfl⟩ := List.mem_map.mp hw
    exact ⟨(written_clean qa.1 qa.2 (hadm qa hqa)).1,
      fun tail ht => argvMatchAt_written qa.1 qa.2 tail (hadm qa hqa) ht⟩)
  unfold bodyAsArgv writeBody FindAllString
  rw [TrimSpace_padded lead trail _ hclean.1 hclean.2, hwords, List.map_map]
  apply List.map_congr_left
  intro qa hqa
  exact stripQuotes_written qa.1 qa.2 (hadm qa hqa)

theorem HasSuffix_concat_iff (l : List Char) (d q : Char) :
    strings.HasSuffix (l ++ [d]) [q] = decide (q = d) := by
  by_cases h : q = d <;> simp [strings.HasSuffix, List.isSuffixOf, List.isPrefixOf, h]

theorem stripQuotes_cases (val : List Char) :
    stripQuotes val = val ∨
    (2 ≤ val.length ∧ (val = singleQuote :: stripQuotes val ++ [singleQuote] ∨
      val = doubleQuote :: stripQuotes val ++ [doubleQuote])) ∨
    ((val = [singleQuote] ∨ val = [doubleQuote]) ∧ stripQuotes val = []) := by
  cases val with
  | nil => left; simp [stripQuotes, strings.HasPrefix, List.isPrefixOf]
  | cons c cs =>
    rcases List.eq_nil_or_concat cs with rfl | ⟨init, d, rfl⟩
    · by_cases h1 : c = singleQuote
      · right; right
        subst h1
        exact ⟨Or.inl rfl, by decide⟩
      · by_cases h2 : c = doubleQuote
        · right; right
          subst h2
          exact ⟨Or.inr rfl, by decide⟩
        · left
          simp [stripQuotes, HasPrefix_cons, Ne.symm h1, Ne.symm h2]
    · have hsuf : ∀ q : Char, strings.HasSuffix (c :: (init ++ [d])) [q] = decide (q = d) :=
        fun q => HasSuffix_concat_iff (c :: init) d q
      by_cases h1 : c = singleQuote
      · by_cases h1d : d = singleQuote
        · right; left
          subst h1; subst h1d
          refine ⟨by simp, Or.inl ?_⟩
          simp [stripQuotes, HasPrefix_cons, hsuf, TrimPrefix_cons, TrimSuffix_concat]
        · left
          have hne : ¬ (doubleQuote = singleQuote) := by decide
          subst h1
          simp [stripQuotes, HasPrefix_cons, hsuf, Ne.symm h1d, hne]
      · by_cases h2 : c = doubleQuote
        · by_cases h2d : d = doubleQuote
          · right; left
            subst h2; subst h2d
            have hne : ¬ (singleQuote = doubleQuote) := by decide
            refine ⟨by simp, Or.inr ?_⟩
            simp [stripQuotes, HasPrefix_cons, hsuf, hne, TrimPrefix_cons, TrimSuffix_concat]
          · left
            simp [stripQuotes, HasPrefix_cons, hsuf, Ne.symm h1, Ne.symm h2d]
        · left
          simp [stripQuotes, HasPrefix_cons, Ne.symm h1, Ne.symm h2]

/-- C15: BodyAsArgv undoes quoting.  When the body consists of arguments, each written
as itself (non-empty, without white space in the sense of `unicode.IsSpace`, without
quote characters), between double quotes (no double quote inside) or between single
quotes (no single quote inside), joined by single spaces, with any number of leading
and trailing spaces, BodyAsArgv returns exactly the list of the arguments. -/
theorem C15_body_as_argv_unquotes (e : Evt) (lead trail : Nat) (args : List (Quoting × List Char))
    (hadm : ∀ qa ∈ args, qa.1.admits qa.2)
    (hbody : e.Body = String.mk (writeBody lead trail args)) :
    e.BodyAsArgv = args.map (fun qa => String.mk qa.2) := by
  unfold Evt.BodyAsArgv
  rw [hbody]
  show (bodyAsArgv (writeBody lead trail args)).map String.mk = _
  rw [bodyAsArgv_written lead trail args hadm, List.map_map]
  rfl

/-- C15 at the body `deploy "my service" 'v2'`, without and with spaces around it. -/
theorem C15_body_as_argv_unquotes_witness :
    (mkEvt "deploy \"my service\" 'v2'" none none).BodyAsArgv
      = ["deploy", "my service", "v2"] ∧
    (mkEvt "  deploy \"my service\" 'v2' " none none).BodyAsArgv
      = ["deploy", "my service", "v2"] :=
  ⟨C15_body_as_argv_unquotes (mkEvt "deploy \"my service\" 'v2'" none none) 0 0
      [(Quoting.bare, "deploy".toList), (Quoting.double, "my service".toList),
       (Quoting.single, "v2".toList)] (by decide) (by decide),
   C15_body_as_argv_unquotes (mkEvt "  deploy \"my service\" 'v2' " none none) 2 1
      [(Quoting.bare, "deploy".toList), (Quoting.double, "my service".toList),
       (Quoting.single, "v2".toList)] (by decide) (by decide)⟩

/-- C16, the code at a failing input: in the body `say '` the pattern matches the tokens
`say` and `'`; the one-character token `'` has the quote as prefix and as suffix, both
are trimmed, and the second element of the result is the empty string, which is
neither the token nor a token of two or more characters without its quotes. -/
theorem C16_lone_quote_stripped :
    FindAllString (strings.TrimSpace "say '".toList) = ["say".toList, "'".toList] ∧
    (mkEvt "say '" none none).BodyAsArgv = ["say", ""] ∧
    stripQuotes "'".toList = [] := by
  decide

end Hal
